import Mathlib

/-!
Formal model of the XCSF classifier-system sources:
`pred_constant.c`, `neural.c`, `neural_layer_maxpool.c`, `neural_layer_dropout.c`.

Modelling conventions:
- C `double` values are modelled as rationals (`ℚ`).  The code paths verified
  here perform only field arithmetic and order comparisons on doubles, both of
  which agree with rational arithmetic on finite non-NaN values; the one place
  where a specific double constant matters (`-DBL_MAX` in `max_pool`) is
  modelled by the exact rational value of that constant.
- C `int` values are modelled as `ℤ`; C integer division (truncation toward
  zero) is `Int.tdiv`.
- Heap buffers (`double *`) are modelled by explicit lists stored in the layer
  record; where buffer identity (aliasing) matters, each buffer additionally
  carries an allocation identifier, and a store maps identifiers to contents.
- Calls that abort the process (`exit(EXIT_FAILURE)`) or dereference NULL are
  modelled with `Except String`.
-/

namespace XCSF

/-- Arithmetic mean of a list of rationals (0 for the empty list). -/
def listMean (xs : List ℚ) : ℚ := xs.sum / xs.length

/-- Model of `pred_constant_update` (pred_constant.c, lines 72-87).
`exp` is the classifier's experience counter `c->exp`, `beta` is `xcsf->BETA`,
`y_dim` is `xcsf->y_dim`, `prediction` is `c->prediction` and `y` the truth
vector.  The input `x` is ignored by the source (`(void) x`), so it is not a
parameter of the model.  The C loop updates each `prediction[var]` in place
from its own old value, which is the same as the map below. -/
def pred_constant_update (beta : ℚ) (y_dim : ℕ) (exp : ℤ) (prediction y : List ℚ) :
    List ℚ :=
  if (exp : ℚ) * beta < 1 then
    (List.range y_dim).map
      (fun v => (prediction.getD v 0 * ((exp : ℚ) - 1) + y.getD v 0) / (exp : ℚ))
  else
    (List.range y_dim).map
      (fun v => prediction.getD v 0 + beta * (y.getD v 0 - prediction.getD v 0))

lemma getD_map_range {α : Type} (f : ℕ → α) (n v : ℕ) (hv : v < n) (d : α) :
    ((List.range n).map f).getD v d = f v := by
  rw [List.getD_eq_getElem?_getD, List.getElem?_map, List.getElem?_range hv]
  rfl

/-- C1: for a classifier with `exp ≥ 1`, `pred_constant_update` sets each
output dimension `v < y_dim` to `(prediction[v]*(exp-1) + y[v])/exp` when
`exp·BETA < 1` — which is exactly the running mean of the first `exp` samples
when `prediction[v]` was the mean of the previous `exp - 1` samples — and to
`prediction[v] + BETA·(y[v] - prediction[v])` otherwise; the input `x` is
ignored (it is not even an argument of the model). -/
theorem C1_pred_constant_update (beta : ℚ) (y_dim : ℕ) (exp : ℤ)
    (prediction y : List ℚ) (hexp : 1 ≤ exp) (v : ℕ) (hv : v < y_dim) :
    ((pred_constant_update beta y_dim exp prediction y).getD v 0 =
      if (exp : ℚ) * beta < 1 then
        (prediction.getD v 0 * ((exp : ℚ) - 1) + y.getD v 0) / (exp : ℚ)
      else prediction.getD v 0 + beta * (y.getD v 0 - prediction.getD v 0)) ∧
    ((exp : ℚ) * beta < 1 →
      ∀ s : List ℚ, (s.length : ℤ) + 1 = exp → prediction.getD v 0 = listMean s →
        (pred_constant_update beta y_dim exp prediction y).getD v 0 =
          listMean (s ++ [y.getD v 0])) := by
  constructor
  · unfold pred_constant_update
    split
    · exact getD_map_range _ _ _ hv _
    · exact getD_map_range _ _ _ hv _
  · intro hcond s hlen hmean
    unfold pred_constant_update
    rw [if_pos hcond, getD_map_range _ _ _ hv, hmean]
    have hexpq : (exp : ℚ) = (s.length : ℚ) + 1 := by
      have h2 : ((s.length : ℤ) : ℚ) + 1 = ((exp : ℤ) : ℚ) := by
        exact_mod_cast congrArg (fun z : ℤ => (z : ℚ)) hlen
      push_cast at h2
      linarith
    have hsum : listMean s * (s.length : ℚ) = s.sum := by
      rcases s with _ | ⟨a, t⟩
      · simp [listMean]
      · have hne : (((a :: t).length : ℕ) : ℚ) ≠ 0 := by
          simp only [List.length_cons]
          push_cast
          positivity
        unfold listMean
        field_simp
    have hRHS : listMean (s ++ [y.getD v 0]) =
        (s.sum + y.getD v 0) / ((s.length : ℚ) + 1) := by
      unfold listMean
      rw [List.sum_append, List.length_append]
      simp only [List.sum_cons, List.sum_nil, List.length_cons, List.length_nil]
      push_cast
      ring_nf
    rw [hexpq, hRHS, show ((s.length : ℚ) + 1 - 1) = (s.length : ℚ) by ring, hsum]

/-- Concrete instance of `C1_pred_constant_update`: `exp = 3`, `BETA = 1/10`
(warm-up branch, since `3·(1/10) < 1`), one output dimension, previous
prediction `2` (the mean of samples `1` and `3`), truth `5`; the update yields
`(2·2 + 5)/3 = 3`, which is the mean of `1, 3, 5`. -/
theorem C1_pred_constant_update_witness :
    (pred_constant_update (1/10) 1 3 [2] [5]).getD 0 0 = 3 := by
  have h := (C1_pred_constant_update (1/10) 1 3 [2] [5] (by norm_num) 0
    (by norm_num)).2 (by norm_num) [1, 3] (by norm_num) (by norm_num [listMean])
  rw [h]
  norm_num [listMean]

/-! ## Layer data model

The C `struct LAYER` is a single flat record holding the union of the fields
used by every layer variant; the model mirrors that.  `layer_init` (declared
in `neural_layer.h`, which is not among the given sources) zeroes the struct;
the record defaults model that. -/

/-- Layer variants appearing in the given sources.  `connected` stands for the
width-mutable layers (`neural_layer_connected.c` etc.), whose code is not in
the given sources; only its spec-modelled mutate/resize behaviour is used. -/
inductive LType
  | maxpool
  | dropout
  | connected
deriving DecidableEq, Repr

/-- Model of `struct LAYER`.  `double *` buffers are value lists plus an
allocation identifier (`...Id`) naming the underlying heap cell, used where
buffer identity (aliasing, independence of copies) is claimed. -/
structure Layer where
  layer_type : LType
  height : ℤ := 0
  width : ℤ := 0
  channels : ℤ := 0
  pad : ℤ := 0
  out_w : ℤ := 0
  out_h : ℤ := 0
  out_c : ℤ := 0
  size : ℤ := 0
  stride : ℤ := 0
  n_inputs : ℤ := 0
  n_outputs : ℤ := 0
  max_outputs : ℤ := 0
  probability : ℚ := 0
  scale : ℚ := 0
  output : List ℚ := []
  delta : List ℚ := []
  state : List ℚ := []
  indexes : List ℤ := []
  outputId : ℕ := 0
  deltaId : ℕ := 0
  stateId : ℕ := 0
  indexesId : ℕ := 0
deriving DecidableEq, Repr

/-- Modelled from the spec: upper bound `N_OUTPUTS_MAX` from `xcsf.h` (not in
the given sources).  The theorems only assume sizes are within range, so the
concrete value is immaterial. -/
def N_OUTPUTS_MAX : ℤ := 1000000

/-- Modelled from the spec: upper bound `N_INPUTS_MAX` from `xcsf.h` (not in
the given sources). -/
def N_INPUTS_MAX : ℤ := 1000000

/-- `realloc` of a `double` buffer to `n` elements: the common prefix is
preserved; any newly acquired cells are uninitialised in C and modelled as 0
(no verified code path reads them before writing). -/
def reallocQ (xs : List ℚ) (n : ℕ) : List ℚ := (xs ++ List.replicate n 0).take n

/-- `realloc` of an `int` buffer, as `reallocQ`. -/
def reallocI (xs : List ℤ) (n : ℕ) : List ℤ := (xs ++ List.replicate n 0).take n

/-! ### neural_layer_maxpool.c -/

/-- Model of `neural_layer_maxpool_init`.  `malloc_layer_arrays` aborts when
`n_outputs` is outside `[1, N_OUTPUTS_MAX]`; `calloc` zero-fills the buffers.
C `int` division truncates toward zero (`Int.tdiv`). -/
def neural_layer_maxpool_init (h w c sz stride pad : ℤ) : Except String Layer :=
  let ow := Int.tdiv (w + pad - sz) stride + 1
  let oh := Int.tdiv (h + pad - sz) stride + 1
  let nout := oh * ow * c
  if nout < 1 ∨ nout > N_OUTPUTS_MAX then
    .error "neural_layer_maxpool: malloc() invalid size"
  else
    .ok { layer_type := .maxpool, height := h, width := w, channels := c,
          pad := pad, out_w := ow, out_h := oh, out_c := c,
          n_outputs := nout, max_outputs := nout, n_inputs := h * w * c,
          size := sz, stride := stride,
          indexes := List.replicate nout.toNat 0,
          output := List.replicate nout.toNat 0,
          delta := List.replicate nout.toNat 0 }

/-- The exact rational value of `-DBL_MAX`: comparisons of finite non-NaN
doubles agree with comparisons of the rationals they denote, so `max_pool`
over finite doubles is modelled exactly. -/
def negDblMax : ℚ := -((2 ^ 53 - 1) * 2 ^ 971)

/-- One window cell of `max_pool`: the body of the inner `for (m ...)` loop.
The accumulator is `(max, max_index)`.  The C bounds test short-circuits, so
`input[index]` is only read in bounds; the model's read of an out-of-range
index (`getD` default) can therefore only occur where C has undefined
behaviour, which no verified path reaches. -/
def max_pool_cell (l : Layer) (input : List ℚ) (i j k : ℤ) (n m : ℤ)
    (acc : ℚ × ℤ) : ℚ × ℤ :=
  let w_offset := Int.tdiv (-l.pad) 2
  let h_offset := w_offset
  let cur_h := h_offset + i * l.stride + n
  let cur_w := w_offset + j * l.stride + m
  let index := cur_w + l.width * (cur_h + l.height * k)
  if 0 ≤ cur_h ∧ cur_h < l.height ∧ 0 ≤ cur_w ∧ cur_w < l.width ∧
      acc.1 < input.getD index.toNat 0 then
    (input.getD index.toNat 0, index)
  else acc

/-- Model of `max_pool` (neural_layer_maxpool.c, lines 123-144): scans the
`size × size` window for output position `(i, j)` of channel `k`, starting
from `max = -DBL_MAX`, `max_index = -1`, and returns the final `max_index`. -/
def max_pool (l : Layer) (input : List ℚ) (i j k : ℤ) : ℤ :=
  ((List.range l.size.toNat).foldl (fun (acc : ℚ × ℤ) (n : ℕ) =>
      (List.range l.size.toNat).foldl (fun (acc : ℚ × ℤ) (m : ℕ) =>
          max_pool_cell l input i j k (n : ℤ) (m : ℤ) acc) acc)
    (negDblMax, -1)).2

/-- Body of the innermost loop of `neural_layer_maxpool_forward`: stores
`max_index` in `indexes[out_index]` and `input[max_index]` in
`output[out_index]`. -/
def maxpool_forward_cell (l : Layer) (input : List ℚ) (k i j : ℤ)
    (acc : List ℤ × List ℚ) : List ℤ × List ℚ :=
  let out_index := j + l.out_w * (i + l.out_h * k)
  let max_index := max_pool l input i j k
  (acc.1.set out_index.toNat max_index,
   acc.2.set out_index.toNat (input.getD max_index.toNat 0))

/-- Model of `neural_layer_maxpool_forward`: triple loop over channels,
output rows and output columns. -/
def neural_layer_maxpool_forward (l : Layer) (input : List ℚ) : Layer :=
  let r := (List.range l.channels.toNat).foldl
    (fun (acc : List ℤ × List ℚ) (k : ℕ) =>
      (List.range l.out_h.toNat).foldl
        (fun (acc : List ℤ × List ℚ) (i : ℕ) =>
          (List.range l.out_w.toNat).foldl
            (fun (acc : List ℤ × List ℚ) (j : ℕ) =>
              maxpool_forward_cell l input (k : ℤ) (i : ℤ) (j : ℤ) acc)
            acc)
        acc)
    (l.indexes, l.output)
  { l with indexes := r.1, output := r.2 }

/-- Model of `neural_layer_maxpool_backward`: when the propagated `delta`
pointer is non-NULL, adds `l->delta[i]` into `delta[l->indexes[i]]` for every
output `i`; the layer itself is unchanged. -/
def neural_layer_maxpool_backward (l : Layer) (delta : Option (List ℚ)) :
    Option (List ℚ) :=
  match delta with
  | none => none
  | some d =>
    some ((List.range l.n_outputs.toNat).foldl (fun d i =>
      let idx := (l.indexes.getD i 0).toNat
      d.set idx (d.getD idx 0 + l.delta.getD i 0)) d)

/-- Model of `neural_layer_maxpool_resize`: recomputes the geometry from the
previous layer's output dimensions and reallocates the buffers. -/
def neural_layer_maxpool_resize (l prev : Layer) : Layer :=
  let w := prev.out_w
  let h := prev.out_h
  let c := prev.out_c
  let ow := Int.tdiv (w + l.pad - l.size) l.stride + 1
  let oh := Int.tdiv (h + l.pad - l.size) l.stride + 1
  let nout := oh * ow * c
  { l with
    height := h, width := w, channels := c, n_inputs := h * w * c,
    out_w := ow, out_h := oh, out_c := c, n_outputs := nout,
    max_outputs := nout,
    indexes := reallocI l.indexes nout.toNat,
    output := reallocQ l.output nout.toNat,
    delta := reallocQ l.delta nout.toNat }

/-! ### neural_layer_dropout.c -/

/-- Model of `neural_layer_dropout_init`: `scale = 1/(1 - probability)`;
`malloc_layer_arrays` aborts when `n_inputs` is outside `[1, N_INPUTS_MAX]`
and zero-fills `output`, `delta` and `state`. -/
def neural_layer_dropout_init (n_inputs : ℤ) (probability : ℚ) :
    Except String Layer :=
  if n_inputs < 1 ∨ n_inputs > N_INPUTS_MAX then
    .error "neural_layer_dropout: malloc() invalid size"
  else
    .ok { layer_type := .dropout, n_inputs := n_inputs, n_outputs := n_inputs,
          max_outputs := n_inputs, probability := probability,
          scale := 1 / (1 - probability),
          output := List.replicate n_inputs.toNat 0,
          delta := List.replicate n_inputs.toNat 0,
          state := List.replicate n_inputs.toNat 0 }

/-- Model of `neural_layer_dropout_forward`.  `rand_uniform(0,1)` lives in
`utils.c`, which is not among the given sources; modelled from the spec
("the RNG is process-wide mutable") as consuming successive values of an
explicit stream `rng`, one per input, in index order.  When `explore` is
false the input is copied to the output unchanged (`memcpy`). -/
def neural_layer_dropout_forward (l : Layer) (explore : Bool) (rng : List ℚ)
    (input : List ℚ) : Layer :=
  let n := l.n_inputs.toNat
  if !explore then
    { l with output := input.take n ++ l.output.drop n }
  else
    let st := (List.range n).map (fun i => rng.getD i 0)
    let out := (List.range n).map (fun i =>
      if rng.getD i 0 < l.probability then 0 else input.getD i 0 * l.scale)
    { l with state := st ++ l.state.drop n, output := out ++ l.output.drop n }

/-- Model of `neural_layer_dropout_backward`: when `delta` is non-NULL, for
every input `i`, `delta[i]` is zeroed where the stored state dropped the
input, and otherwise accumulates `l->delta[i] * scale`. -/
def neural_layer_dropout_backward (l : Layer) (delta : Option (List ℚ)) :
    Option (List ℚ) :=
  match delta with
  | none => none
  | some d =>
    some ((List.range l.n_inputs.toNat).foldl (fun d i =>
      if l.state.getD i 0 < l.probability then d.set i 0
      else d.set i (d.getD i 0 + l.delta.getD i 0 * l.scale)) d)

/-- Model of `neural_layer_dropout_resize`: adopts the previous layer's
output width for `n_inputs`, `n_outputs` and `max_outputs` and reallocates
the buffers. -/
def neural_layer_dropout_resize (l prev : Layer) : Layer :=
  let n := prev.n_outputs
  { l with
    n_inputs := n, n_outputs := n, max_outputs := n,
    state := reallocQ l.state n.toNat,
    output := reallocQ l.output n.toNat,
    delta := reallocQ l.delta n.toNat }

/-! ### Width-mutable layers (spec-modelled) -/

/-- Modelled from the spec: the mutate operation of the width-mutable layer
variants (`neural_layer_connected.c` and friends, not among the given
sources).  The spec says "Mutation may change layer width"; the PRNG outcome
is supplied explicitly as `ev`: `none` means the layer did not mutate,
`some w` means mutation succeeded and set the output width to `w`.  Returns
the mutated layer and whether an alteration was made. -/
def neural_layer_connected_mutate (l : Layer) (ev : Option ℤ) : Layer × Bool :=
  match ev with
  | none => (l, false)
  | some w => ({ l with n_outputs := w }, true)

/-- Modelled from the spec: the resize operation of the width-mutable layer
variants ("Mutation may change layer width, necessitating downstream-layer
resize"): the layer adopts the previous layer's output width as its input
width; its own output width is unchanged. -/
def neural_layer_connected_resize (l prev : Layer) : Layer :=
  { l with n_inputs := prev.n_outputs }

/-! ### Virtual-table dispatch (`layer_*` wrappers from neural_layer.h) -/

/-- `layer_mutate` dispatch.  For maxpool and dropout the source functions
return false without touching the layer; the mutation event `ev` is consumed
only by the spec-modelled width-mutable variant. -/
def layer_mutate (l : Layer) (ev : Option ℤ) : Layer × Bool :=
  match l.layer_type with
  | .maxpool => (l, false)
  | .dropout => (l, false)
  | .connected => neural_layer_connected_mutate l ev

/-- `layer_resize` dispatch. -/
def layer_resize (l prev : Layer) : Layer :=
  match l.layer_type with
  | .maxpool => neural_layer_maxpool_resize l prev
  | .dropout => neural_layer_dropout_resize l prev
  | .connected => neural_layer_connected_resize l prev

/-- `layer_output` dispatch: both source variants return `l->output`. -/
def layer_output (l : Layer) : List ℚ := l.output

/-- `layer_forward` dispatch, threading the RNG stream; maxpool forward is
deterministic, dropout forward consumes one stream value per input when
exploring.  The width-mutable variants are not needed by any claim and are
modelled as the identity. -/
def layer_forward (l : Layer) (input : List ℚ) (explore : Bool)
    (rng : List ℚ) : Layer × List ℚ :=
  match l.layer_type with
  | .maxpool => (neural_layer_maxpool_forward l input, rng)
  | .dropout =>
    (neural_layer_dropout_forward l explore rng input,
     if explore then rng.drop l.n_inputs.toNat else rng)
  | .connected => (l, rng)

/-- `layer_backward` dispatch: returns the (possibly) updated inner-layer
delta buffer; `none` models a NULL delta pointer.  The `input` argument is
ignored by both source variants (`(void) input`). -/
def layer_backward (l : Layer) (_input : List ℚ) (delta : Option (List ℚ)) :
    Option (List ℚ) :=
  match l.layer_type with
  | .maxpool => neural_layer_maxpool_backward l delta
  | .dropout => neural_layer_dropout_backward l delta
  | .connected => delta

/-- `layer_update` dispatch: maxpool and dropout updates are no-ops in the
source. -/
def layer_update (l : Layer) : Layer :=
  match l.layer_type with
  | .maxpool => l
  | .dropout => l
  | .connected => l

/-! ## neural.c: the network

The C network is a doubly-linked list of layers: `net->tail` is the input
side and `net->head` the output side, `iter->prev` steps from tail toward
head and `iter->next` from head toward tail.  The model stores the layers as
a list whose index 0 is the tail (input side) and whose last element is the
head (output side); walking `p` times from `net->tail` along `prev` reaches
index `p`, and `NULL` exactly when `p ≥ length`.  `net->output` is a pointer
alias of the head layer's output buffer, modelled by that buffer's
allocation identifier. -/

/-- Model of `struct NET`. -/
structure Net where
  layers : List Layer := []
  n_layers : ℤ := 0
  n_inputs : ℤ := 0
  n_outputs : ℤ := 0
  outputRef : Option ℕ := none
deriving DecidableEq, Repr

/-- Model of `neural_init`: the empty network. -/
def neural_init : Net := {}

/-- Model of `neural_layer_insert` (neural.c, lines 55-102).  Three live
paths: the empty list; `iter = NULL` after the walk (a new head, i.e. an
append on the output side); and an interior insert.  When the walk stops at
the tail itself (`p ≤ 0` on a nonempty list), `new->next` is NULL, and since
the `iter->next == NULL` test is executed only after `iter->next = new` has
made `iter->next` non-NULL, control always reaches the "middle" branch and
dereferences `new->next` = NULL: modelled as an error.  Consequently the
"new tail" branch (which would refresh `net->n_inputs`) is dead code. -/
def neural_layer_insert (net : Net) (l : Layer) (p : ℤ) : Except String Net :=
  match net.layers with
  | [] =>
    .ok { layers := [l], n_layers := net.n_layers + 1, n_inputs := l.n_inputs,
          n_outputs := l.n_outputs, outputRef := some l.outputId }
  | _ :: _ =>
    if p.toNat ≥ net.layers.length then
      .ok { net with
            layers := net.layers ++ [l], n_layers := net.n_layers + 1,
            n_outputs := l.n_outputs, outputRef := some l.outputId }
    else if p.toNat = 0 then
      .error "neural_layer_insert: NULL dereference inserting before the tail"
    else
      .ok { net with
            layers := net.layers.insertIdx p.toNat l,
            n_layers := net.n_layers + 1 }

/-- Model of `neural_layer_remove` (neural.c, lines 110-150).  Aborts when
the walk runs off the list (`p ≥ length`, including the empty list) or when
the list has exactly one node.  Removing the head refreshes `net->output`
and `net->n_outputs` from the new head; removing the tail does NOT refresh
`net->n_inputs` (lines 134-140 update only the tail pointer). -/
def neural_layer_remove (net : Net) (p : ℤ) : Except String Net :=
  let n := net.layers.length
  if p.toNat ≥ n then
    .error "neural_layer_remove(): error finding layer to remove"
  else if n = 1 then
    .error "neural_layer_remove(): attempted to remove the only layer"
  else
    let layersRemaining := net.layers.eraseIdx p.toNat
    if p.toNat = n - 1 then
      match layersRemaining.getLast? with
      | some hd =>
        .ok { net with
              layers := layersRemaining, n_layers := net.n_layers - 1,
              n_outputs := hd.n_outputs, outputRef := some hd.outputId }
      | none => .error "unreachable: n is at least 2 here"
    else
      .ok { net with layers := layersRemaining, n_layers := net.n_layers - 1 }

/-- Model of `neural_output` (neural.c, lines 312-321): inside range it
returns `layer_output(net->head->layer)[i]` and the network is untouched;
otherwise the process exits with a diagnostic. -/
def neural_output (net : Net) (i : ℤ) : Except String ℚ :=
  if i < net.n_outputs then
    match net.layers.getLast? with
    | some hd => .ok ((layer_output hd).getD i.toNat 0)
    | none => .error "neural_output: NULL head layer"
  else
    .error "neural_output(): requested neuron beyond the output layer size"

/-- Model of `neural_propagate` (neural.c, lines 258-266): forward pass from
the tail (input side) to the head, feeding each layer the previous layer's
output; returns the updated network, the head layer's output signal, and the
remaining RNG stream. -/
def neural_propagate (net : Net) (input : List ℚ) (explore : Bool)
    (rng : List ℚ) : Net × List ℚ × List ℚ :=
  let r := net.layers.foldl
    (fun (acc : List Layer × List ℚ × List ℚ) l =>
      let (l2, rng2) := layer_forward l acc.2.1 explore acc.2.2
      (acc.1 ++ [l2], layer_output l2, rng2))
    ([], input, rng)
  ({ net with layers := r.1 }, r.2.1, r.2.2)

/-! ### neural_save / neural_load

A binary file is modelled as a list of typed words, one per `fwrite` /
`fread` item; reading an `int` where a `double` was written is modelled as a
read failure. -/

/-- One serialised item. -/
inductive Word
  | wi (n : ℤ)
  | wd (x : ℚ)
deriving DecidableEq, Repr

/-- `fread` of one `int`. -/
def readInt : List Word → Except String (ℤ × List Word)
  | .wi n :: rest => .ok (n, rest)
  | _ => .error "fread: expected an int"

/-- `fread` of one `double`. -/
def readRat : List Word → Except String (ℚ × List Word)
  | .wd x :: rest => .ok (x, rest)
  | _ => .error "fread: expected a double"

/-- Modelled from the spec: the numeric values of the `LAYER_TYPE` enum live
in a header that is not among the given sources; any injective coding makes
the save/load round trip behave identically ("variants are self-describing
by their tag"). -/
def ltypeCode : LType → ℤ
  | .maxpool => 0
  | .dropout => 1
  | .connected => 2

/-- `layer_set_vptr` (dispatch on the tag read from the file). -/
def layer_set_vptr (code : ℤ) : Except String LType :=
  if code = 0 then .ok .maxpool
  else if code = 1 then .ok .dropout
  else if code = 2 then .ok .connected
  else .error "layer_set_vptr: unknown layer type"

/-- Model of `neural_layer_maxpool_save`: twelve ints, in source order. -/
def neural_layer_maxpool_save (l : Layer) : List Word :=
  [.wi l.height, .wi l.width, .wi l.channels, .wi l.pad, .wi l.out_w,
   .wi l.out_h, .wi l.out_c, .wi l.n_outputs, .wi l.max_outputs,
   .wi l.n_inputs, .wi l.size, .wi l.stride]

/-- Model of `neural_layer_maxpool_load`: reads the twelve ints back into a
freshly malloc'd layer and calls `malloc_layer_arrays` (abort when
`n_outputs` is out of range, zero-filled buffers). -/
def neural_layer_maxpool_load (l : Layer) (ws : List Word) :
    Except String (Layer × List Word) := do
  let (h, ws) ← readInt ws
  let (w, ws) ← readInt ws
  let (c, ws) ← readInt ws
  let (pad, ws) ← readInt ws
  let (ow, ws) ← readInt ws
  let (oh, ws) ← readInt ws
  let (oc, ws) ← readInt ws
  let (nout, ws) ← readInt ws
  let (maxout, ws) ← readInt ws
  let (nin, ws) ← readInt ws
  let (sz, ws) ← readInt ws
  let (stride, ws) ← readInt ws
  if nout < 1 ∨ nout > N_OUTPUTS_MAX then
    .error "neural_layer_maxpool: malloc() invalid size"
  else
    .ok ({ l with
           height := h, width := w, channels := c, pad := pad, out_w := ow,
           out_h := oh, out_c := oc, n_outputs := nout, max_outputs := maxout,
           n_inputs := nin, size := sz, stride := stride,
           indexes := List.replicate nout.toNat 0,
           output := List.replicate nout.toNat 0,
           delta := List.replicate nout.toNat 0 }, ws)

/-- Model of `neural_layer_dropout_save`: three ints then two doubles. -/
def neural_layer_dropout_save (l : Layer) : List Word :=
  [.wi l.n_inputs, .wi l.n_outputs, .wi l.max_outputs, .wd l.probability,
   .wd l.scale]

/-- Model of `neural_layer_dropout_load`. -/
def neural_layer_dropout_load (l : Layer) (ws : List Word) :
    Except String (Layer × List Word) := do
  let (nin, ws) ← readInt ws
  let (nout, ws) ← readInt ws
  let (maxout, ws) ← readInt ws
  let (prob, ws) ← readRat ws
  let (sc, ws) ← readRat ws
  if nin < 1 ∨ nin > N_INPUTS_MAX then
    .error "neural_layer_dropout: malloc() invalid size"
  else
    .ok ({ l with
           n_inputs := nin, n_outputs := nout, max_outputs := maxout,
           probability := prob, scale := sc,
           output := List.replicate nin.toNat 0,
           delta := List.replicate nin.toNat 0,
           state := List.replicate nin.toNat 0 }, ws)

/-- `layer_save` dispatch.  The width-mutable variants never occur in the
serialisation claims; their payload is modelled as empty. -/
def layer_save (l : Layer) : List Word :=
  match l.layer_type with
  | .maxpool => neural_layer_maxpool_save l
  | .dropout => neural_layer_dropout_save l
  | .connected => []

/-- `layer_load` dispatch. -/
def layer_load (l : Layer) (ws : List Word) :
    Except String (Layer × List Word) :=
  match l.layer_type with
  | .maxpool => neural_layer_maxpool_load l ws
  | .dropout => neural_layer_dropout_load l ws
  | .connected => .ok (l, ws)

/-- One layer's serialised record inside `neural_save`'s loop: the type tag,
then the payload. -/
def layer_save_tagged (l : Layer) : List Word :=
  .wi (ltypeCode l.layer_type) :: layer_save l

/-- Model of `neural_save` (neural.c, lines 374-386): the three network ints,
then, from tail to head, each layer's type tag and payload. -/
def neural_save (net : Net) : List Word :=
  [.wi net.n_layers, .wi net.n_inputs, .wi net.n_outputs] ++
    (net.layers.map layer_save_tagged).flatten

/-- Body of `neural_load`'s read loop, iteration `i`: read the type tag,
dispatch the virtual table, load the layer payload, insert at position `i`. -/
def neural_load_step (acc : Net × List Word) (i : ℕ) :
    Except String (Net × List Word) := do
  let (code, ws) ← readInt acc.2
  let t ← layer_set_vptr code
  let (l, ws) ← layer_load { layer_type := t } ws
  let net ← neural_layer_insert acc.1 l i
  pure (net, ws)

/-- Model of `neural_load` (neural.c, lines 395-414): reads the three header
ints (the input/output widths are read into locals that are then discarded —
the rebuilt network's bookkeeping comes from `neural_layer_insert`), then
loads `n_layers` layers, inserting the i-th at position i (which always
appends at the head side, so the tail-insertion fault is never reached). -/
def neural_load (ws : List Word) : Except String (Net × List Word) := do
  let (nlayers, ws) ← readInt ws
  let (_nin, ws) ← readInt ws
  let (_nout, ws) ← readInt ws
  (List.range nlayers.toNat).foldlM neural_load_step (neural_init, ws)

/-- Loop body of `neural_mutate`: one iteration per list node, from tail to
head, carrying `prev`, `do_resize` and `mod` exactly as the C loop does.
`evs` supplies the per-layer PRNG outcome for `layer_mutate`, one entry per
layer in tail-to-head order. -/
def neural_mutate_go (prev : Option Layer) (do_resize mod : Bool) :
    List Layer → List (Option ℤ) → List Layer × Bool
  | [], _ => ([], mod)
  | l0 :: rest, evs =>
    let l1 := match do_resize, prev with
      | true, some pl => layer_resize l0 pl
      | _, _ => l0
    let m := layer_mutate l1 (evs.headD none)
    let dr := m.2 && (m.1.n_outputs != l1.n_outputs)
    let r := neural_mutate_go (some m.1) dr (mod || m.2) rest evs.tail
    (m.1 :: r.1, r.2)

/-- Model of `neural_mutate` (neural.c, lines 209-233): for each layer from
tail to head, first resize it against the previous layer when the previous
layer's mutation changed its output width, then mutate it and record whether
its own output width changed; returns the layers and whether any alteration
was made. -/
def neural_mutate (layers : List Layer) (evs : List (Option ℤ)) :
    List Layer × Bool :=
  neural_mutate_go none false false layers evs

/-! ## Claims C4 and C5: error handling of remove and output -/

/-- C4: removing a layer from a single-layer network always aborts with a
diagnostic, for every position `p` (the walk either stops at the only node,
which has no neighbours, or runs off the list); on a network with at least
two layers and a valid position `p`, exactly the layer at position `p`
(counted from the input side, as the walk does) is removed and `n_layers`
drops by one. -/
theorem C4_neural_layer_remove (net : Net) :
    (net.layers.length = 1 → ∀ p : ℤ, ∃ e, neural_layer_remove net p = .error e) ∧
    (∀ p : ℕ, 2 ≤ net.layers.length → p < net.layers.length →
      ∃ net2, neural_layer_remove net (p : ℤ) = .ok net2 ∧
        net2.layers = net.layers.eraseIdx p ∧
        net2.n_layers = net.n_layers - 1) := by
  constructor
  · intro h1 p
    unfold neural_layer_remove
    by_cases hp : p.toNat ≥ net.layers.length
    · rw [if_pos hp]
      exact ⟨_, rfl⟩
    · rw [if_neg hp, if_pos h1]
      exact ⟨_, rfl⟩
  · intro p h2 hlt
    have htn : ((p : ℤ)).toNat = p := Int.toNat_ofNat p
    unfold neural_layer_remove
    rw [htn, if_neg (by omega), if_neg (by omega)]
    by_cases hh : p = net.layers.length - 1
    · rw [if_pos hh]
      have hlen : (net.layers.eraseIdx p).length + 1 = net.layers.length :=
        List.length_eraseIdx_add_one hlt

      cases hL : (net.layers.eraseIdx p).getLast? with
      | none =>
        exfalso
        rw [List.getLast?_eq_none_iff] at hL
        rw [hL] at hlen
        simp at hlen
        omega
      | some hd => exact ⟨_, rfl, rfl, rfl⟩
    · rw [if_neg hh]
      exact ⟨_, rfl, rfl, rfl⟩

/-- Instance of `C4_neural_layer_remove`: removing from the one-layer network
aborts; removing position 0 of a two-layer network succeeds, leaving one
layer. -/
theorem C4_neural_layer_remove_witness :
    (∃ e, neural_layer_remove { layers := [{ layer_type := .dropout }] } 0 =
      .error e) ∧
    (∃ net2, neural_layer_remove
        { layers := [{ layer_type := .dropout }, { layer_type := .maxpool }],
          n_layers := 2 } (0 : ℕ) = .ok net2 ∧
      net2.layers = [({ layer_type := .maxpool } : Layer)] ∧
      net2.n_layers = 2 - 1) :=
  ⟨(C4_neural_layer_remove { layers := [{ layer_type := .dropout }] }).1
      (by norm_num) 0,
   (C4_neural_layer_remove
      { layers := [{ layer_type := .dropout }, { layer_type := .maxpool }],
        n_layers := 2 }).2 0 (by norm_num) (by norm_num)⟩

/-- C5: when `0 ≤ i < net.n_outputs`, `neural_output` returns the i-th entry
of the head (output) layer's output buffer — the model is a pure function, so
the network is untouched; when `i ≥ net.n_outputs`, the call is surfaced as a
fatal error (the C process exits with a diagnostic before touching any
state). -/
theorem C5_neural_output (net : Net) (hd : Layer) (i : ℤ)
    (hhd : net.layers.getLast? = some hd) :
    (∀ (h0 : 0 ≤ i) (hi : i < net.n_outputs) (h : i.toNat < hd.output.length),
      neural_output net i = .ok (hd.output.get ⟨i.toNat, h⟩)) ∧
    (net.n_outputs ≤ i → ∃ e, neural_output net i = .error e) := by
  constructor
  · intro h0 hi h
    unfold neural_output
    rw [if_pos hi, hhd]
    show Except.ok ((layer_output hd).getD i.toNat 0) = _
    unfold layer_output
    rw [List.getD_eq_getElem hd.output 0 h]
    rfl
  · intro hle
    unfold neural_output
    rw [if_neg (by omega)]
    exact ⟨_, rfl⟩

/-- Instance of `C5_neural_output` on a one-layer network with two outputs:
index 1 is returned, index 2 is a fatal error. -/
theorem C5_neural_output_witness :
    (neural_output
      { layers := [{ layer_type := .dropout, output := [4, 7] }],
        n_outputs := 2 } 1 = .ok 7) ∧
    (∃ e, neural_output
      { layers := [{ layer_type := .dropout, output := [4, 7] }],
        n_outputs := 2 } 2 = .error e) :=
  ⟨(C5_neural_output
      { layers := [{ layer_type := .dropout, output := [4, 7] }],
        n_outputs := 2 } { layer_type := .dropout, output := [4, 7] } 1
      rfl).1 (by norm_num) (by norm_num) (by norm_num),
   (C5_neural_output
      { layers := [{ layer_type := .dropout, output := [4, 7] }],
        n_outputs := 2 } { layer_type := .dropout, output := [4, 7] } 2
      rfl).2 (by norm_num)⟩

/-! ## Claim C10: bookkeeping invariants across insert/remove sequences -/

/-- Inserting strictly inside a list (position below the length) does not
change its last element. -/
lemma getLast?_insertIdx_of_lt {α : Type} (a : α) :
    ∀ (xs : List α) (p : ℕ), p < xs.length →
      (xs.insertIdx p a).getLast? = xs.getLast?
  | [], p, hp => by simp at hp
  | x :: t, 0, _ => by
      rw [List.insertIdx_zero, List.getLast?_cons_cons]
  | x :: t, p + 1, hp => by
      rw [List.insertIdx_succ_cons]
      have hp2 : p < t.length := by simpa using hp
      rcases t with _ | ⟨b, u⟩
      · simp at hp2
      · rcases hcv : List.insertIdx p a (b :: u) with _ | ⟨c, v⟩
        · have hlen := congrArg List.length hcv
          rw [List.length_insertIdx p (b :: u) (by omega)] at hlen
          simp at hlen
        · conv_lhs => rw [List.getLast?_cons_cons]
          conv_rhs => rw [List.getLast?_cons_cons]
          rw [← hcv, getLast?_insertIdx_of_lt a (b :: u) p hp2]

/-- Inserting at a positive position does not change the first element. -/
lemma head?_insertIdx_of_pos {α : Type} (a x : α) (t : List α) (p : ℕ)
    (hp : 1 ≤ p) : ((x :: t).insertIdx p a).head? = some x := by
  obtain ⟨q, rfl⟩ : ∃ q, p = q + 1 := ⟨p - 1, by omega⟩
  rw [List.insertIdx_succ_cons]
  rfl

/-- Erasing at a positive position does not change the first element. -/
lemma head?_eraseIdx_of_pos {α : Type} (x : α) (t : List α) (p : ℕ)
    (hp : 1 ≤ p) : ((x :: t).eraseIdx p).head? = some x := by
  obtain ⟨q, rfl⟩ : ∃ q, p = q + 1 := ⟨p - 1, by omega⟩
  rw [List.eraseIdx_cons_succ]
  rfl

/-- Erasing strictly before the last position does not change the last
element. -/
lemma getLast?_eraseIdx_of_lt {α : Type} :
    ∀ (xs : List α) (p : ℕ), p + 1 < xs.length →
      (xs.eraseIdx p).getLast? = xs.getLast?
  | [], p, hp => by simp at hp
  | x :: t, 0, hp => by
      rcases t with _ | ⟨b, u⟩
      · simp at hp
      · rw [List.eraseIdx_cons_zero, List.getLast?_cons_cons]
  | x :: t, p + 1, hp => by
      rw [List.eraseIdx_cons_succ]
      have hp2 : p + 1 < t.length := by simpa using hp
      rcases t with _ | ⟨b, u⟩
      · simp at hp2
      · have hlen : ((b :: u).eraseIdx p).length + 1 = (b :: u).length :=
          @List.length_eraseIdx_add_one _ (b :: u) p (by omega)
        rcases hcv : (b :: u).eraseIdx p with _ | ⟨c, v⟩
        · rw [hcv] at hlen
          simp only [List.length_cons, List.length_nil] at hlen hp2
          omega
        · conv_lhs => rw [List.getLast?_cons_cons]
          conv_rhs => rw [List.getLast?_cons_cons]
          rw [← hcv, getLast?_eraseIdx_of_lt (b :: u) p hp2]

/-- `net->n_layers` agrees with the length of the layer list. -/
def countConsistent (net : Net) : Prop := net.n_layers = net.layers.length

/-- `net->n_outputs` and `net->output` track the head (output) layer. -/
def headConsistent (net : Net) : Prop :=
  ∀ hd, net.layers.getLast? = some hd →
    net.n_outputs = hd.n_outputs ∧ net.outputRef = some hd.outputId

/-- `net->n_inputs` tracks the tail (input) layer. -/
def tailConsistent (net : Net) : Prop :=
  ∀ tl, net.layers.head? = some tl → net.n_inputs = tl.n_inputs

/-- A successful `neural_layer_insert` preserves the count and head
invariants, and the tail invariant as well. -/
lemma neural_layer_insert_inv (net : Net) (l : Layer) (p : ℤ) (net2 : Net)
    (h : neural_layer_insert net l p = .ok net2)
    (h1 : countConsistent net) (h2 : headConsistent net) :
    countConsistent net2 ∧ headConsistent net2 ∧
      (tailConsistent net → tailConsistent net2) := by
  unfold neural_layer_insert at h
  rcases hl : net.layers with _ | ⟨x, t⟩
  · rw [hl] at h
    cases h
    unfold countConsistent at h1
    rw [hl] at h1
    refine ⟨?_, ?_, ?_⟩
    · unfold countConsistent
      simp at h1 ⊢
      omega
    · intro hd hhd
      simp at hhd
      subst hhd
      exact ⟨rfl, rfl⟩
    · intro _ tl htl
      simp at htl
      subst htl
      rfl
  · rw [hl] at h
    by_cases hge : p.toNat ≥ (x :: t).length
    · rw [if_pos hge] at h
      cases h
      refine ⟨?_, ?_, ?_⟩
      · unfold countConsistent at h1 ⊢
        rw [hl] at h1
        simp only [List.length_append, List.length_cons, List.length_nil] at h1 ⊢
        omega
      · intro hd hhd
        rw [List.getLast?_concat] at hhd
        cases hhd
        exact ⟨rfl, rfl⟩
      · intro h3 tl htl
        simp only [List.cons_append, List.head?_cons] at htl
        have hxtl : x = tl := by simpa using htl
        rw [← hxtl]
        exact h3 x (by rw [hl]; rfl)
    · rw [if_neg hge] at h
      by_cases h0 : p.toNat = 0
      · rw [if_pos h0] at h
        cases h
      · rw [if_neg h0] at h
        cases h
        have hplt : p.toNat < (x :: t).length := by omega
        refine ⟨?_, ?_, ?_⟩
        · unfold countConsistent at h1 ⊢
          rw [hl] at h1
          simp only
          rw [List.length_insertIdx p.toNat (x :: t) (by omega)]
          simp only [List.length_cons] at h1 ⊢
          omega
        · intro hd hhd
          simp only at hhd
          rw [getLast?_insertIdx_of_lt l (x :: t) p.toNat hplt] at hhd
          exact h2 hd (by rw [hl]; exact hhd)
        · intro h3 tl htl
          simp only at htl
          rw [head?_insertIdx_of_pos l x t p.toNat (by omega)] at htl
          have hxtl : x = tl := by simpa using htl
          rw [← hxtl]
          exact h3 x (by rw [hl]; rfl)

/-- A successful `neural_layer_remove` preserves the count and head
invariants; it preserves the tail invariant when it does not remove the
tail layer (the source never refreshes `net->n_inputs`). -/
lemma neural_layer_remove_inv (net : Net) (p : ℤ) (net2 : Net)
    (h : neural_layer_remove net p = .ok net2)
    (h1 : countConsistent net) (h2 : headConsistent net) :
    countConsistent net2 ∧ headConsistent net2 ∧
      (tailConsistent net → p.toNat ≠ 0 → tailConsistent net2) := by
  unfold neural_layer_remove at h
  by_cases hge : p.toNat ≥ net.layers.length
  · rw [if_pos hge] at h
    cases h
  · rw [if_neg hge] at h
    by_cases hone : net.layers.length = 1
    · rw [if_pos hone] at h
      cases h
    · rw [if_neg hone] at h
      have hlt : p.toNat < net.layers.length := by omega
      have herase : (net.layers.eraseIdx p.toNat).length + 1 =
          net.layers.length := List.length_eraseIdx_add_one hlt
      by_cases hhead : p.toNat = net.layers.length - 1
      · rw [if_pos hhead] at h
        rcases hL : (net.layers.eraseIdx p.toNat).getLast? with _ | hd
        · rw [hL] at h
          cases h
        · rw [hL] at h
          cases h
          refine ⟨?_, ?_, ?_⟩
          · unfold countConsistent at h1 ⊢
            simp only
            omega
          · intro hd2 hhd2
            simp only at hhd2
            rw [hL] at hhd2
            cases hhd2
            exact ⟨rfl, rfl⟩
          · intro h3 hp0 tl htl
            simp only at htl
            rcases hl : net.layers with _ | ⟨x, t⟩
            · rw [hl] at hlt
              simp at hlt
            · rw [hl, head?_eraseIdx_of_pos x t p.toNat (by omega)] at htl
              have hxtl : x = tl := by simpa using htl
              rw [← hxtl]
              exact h3 x (by rw [hl]; rfl)
      · rw [if_neg hhead] at h
        cases h
        refine ⟨?_, ?_, ?_⟩
        · unfold countConsistent at h1 ⊢
          simp only
          omega
        · intro hd hhd
          simp only at hhd
          rw [getLast?_eraseIdx_of_lt net.layers p.toNat (by omega)] at hhd
          exact h2 hd hhd
        · intro h3 hp0 tl htl
          simp only at htl
          rcases hl : net.layers with _ | ⟨x, t⟩
          · rw [hl] at hlt
            simp at hlt
          · rw [hl, head?_eraseIdx_of_pos x t p.toNat (by omega)] at htl
            have hxtl : x = tl := by simpa using htl
            rw [← hxtl]
            exact h3 x (by rw [hl]; rfl)

/-- One call in a sequence of network bookkeeping operations. -/
inductive NetOp
  | insert (l : Layer) (p : ℤ)
  | remove (p : ℤ)

/-- Whether the operation removes the input-side (tail) layer, i.e. is a
remove whose walk stops at the tail (`p ≤ 0`). -/
def NetOp.removesTail : NetOp → Bool
  | .remove p => p.toNat == 0
  | .insert _ _ => false

/-- Run a sequence of `neural_layer_insert` / `neural_layer_remove` calls. -/
def runOps : Net → List NetOp → Except String Net
  | net, [] => .ok net
  | net, NetOp.insert l p :: rest =>
      (neural_layer_insert net l p).bind (fun n2 => runOps n2 rest)
  | net, NetOp.remove p :: rest =>
      (neural_layer_remove net p).bind (fun n2 => runOps n2 rest)

lemma runOps_inv :
    ∀ (ops : List NetOp) (net net2 : Net), runOps net ops = .ok net2 →
      countConsistent net → headConsistent net →
      (countConsistent net2 ∧ headConsistent net2 ∧
        (tailConsistent net → (∀ op ∈ ops, op.removesTail = false) →
          tailConsistent net2))
  | [], net, net2, h, h1, h2 => by
      cases h
      exact ⟨h1, h2, fun h3 _ => h3⟩
  | NetOp.insert l p :: rest, net, net2, h, h1, h2 => by
      unfold runOps at h
      rcases hstep : neural_layer_insert net l p with e | mid
      · rw [hstep] at h
        cases h
      · rw [hstep] at h
        obtain ⟨g1, g2, g3⟩ := neural_layer_insert_inv net l p mid hstep h1 h2
        obtain ⟨k1, k2, k3⟩ := runOps_inv rest mid net2 h g1 g2
        refine ⟨k1, k2, fun h3 hops => ?_⟩
        exact k3 (g3 h3) (fun op hop => hops op (List.mem_cons_of_mem _ hop))
  | NetOp.remove p :: rest, net, net2, h, h1, h2 => by
      unfold runOps at h
      rcases hstep : neural_layer_remove net p with e | mid
      · rw [hstep] at h
        cases h
      · rw [hstep] at h
        obtain ⟨g1, g2, g3⟩ := neural_layer_remove_inv net p mid hstep h1 h2
        obtain ⟨k1, k2, k3⟩ := runOps_inv rest mid net2 h g1 g2
        refine ⟨k1, k2, fun h3 hops => ?_⟩
        have hp0 : p.toNat ≠ 0 := by
          have hmem := hops (NetOp.remove p) (List.mem_cons_self _ _)
          unfold NetOp.removesTail at hmem
          simpa using hmem
        exact k3 (g3 h3 hp0) (fun op hop => hops op (List.mem_cons_of_mem _ hop))

/-- C10 counterexample: starting from `neural_init`, insert a dropout layer
with `n_inputs = 3`, append a dropout layer with `n_inputs = 5`, then remove
the tail layer (position 0, on a two-layer network — a valid remove).  The
run succeeds, the remaining (tail) layer has `n_inputs = 5`, but
`net.n_inputs` is still 3: `neural_layer_remove` never refreshes
`net->n_inputs`, so the claimed invariant fails. -/
theorem C10_counterexample :
    (runOps neural_init
      [NetOp.insert { layer_type := .dropout, n_inputs := 3, n_outputs := 3 } 0,
       NetOp.insert { layer_type := .dropout, n_inputs := 5, n_outputs := 5 } 1,
       NetOp.remove 0]).map
      (fun net => (net.n_inputs, net.layers.map (fun l => l.n_inputs))) =
    .ok (3, [5]) := by
  rfl

/-- C10 amended: after any successful sequence of inserts and removes from
`neural_init`, `n_layers` matches the layer count and `n_outputs` /
`net->output` track the head layer; `n_inputs` tracks the tail layer
provided no operation removed the tail layer (removal of the tail does not
update `n_inputs` in the source). -/
theorem C10_net_bookkeeping (ops : List NetOp) (net2 : Net)
    (hrun : runOps neural_init ops = .ok net2) :
    countConsistent net2 ∧ headConsistent net2 ∧
      ((∀ op ∈ ops, op.removesTail = false) → tailConsistent net2) := by
  obtain ⟨k1, k2, k3⟩ := runOps_inv ops neural_init net2 hrun (by rfl)
    (by intro hd hhd; cases hhd)
  exact ⟨k1, k2, fun hops => k3 (by intro tl htl; cases htl) hops⟩

/-- Instance of `C10_net_bookkeeping`: insert two layers and remove the head;
all three invariants hold for the result. -/
theorem C10_net_bookkeeping_witness :
    ∃ net2, runOps neural_init
      [NetOp.insert { layer_type := .dropout, n_inputs := 3, n_outputs := 3 } 0,
       NetOp.insert { layer_type := .maxpool, n_inputs := 3, n_outputs := 2 } 1,
       NetOp.remove 1] = .ok net2 ∧
      (countConsistent net2 ∧ headConsistent net2 ∧ tailConsistent net2) := by
  have h := C10_net_bookkeeping
    [NetOp.insert { layer_type := .dropout, n_inputs := 3, n_outputs := 3 } 0,
     NetOp.insert { layer_type := .maxpool, n_inputs := 3, n_outputs := 2 } 1,
     NetOp.remove 1] _ rfl
  refine ⟨_, rfl, h.1, h.2.1, h.2.2 ?_⟩
  intro op hop
  simp only [List.mem_cons, List.not_mem_nil, or_false] at hop
  rcases hop with rfl | rfl | rfl <;> rfl

/-! ## Claim C2: layer-width consistency after neural_mutate -/

/-- Adjacent layer widths agree: each layer's `n_inputs` equals the previous
layer's `n_outputs`, from the input side to the output side. -/
def widthsConsistent : List Layer → Bool
  | [] => true
  | [_] => true
  | a :: b :: rest => (b.n_inputs == a.n_outputs) && widthsConsistent (b :: rest)

/-- `layer_mutate` never changes `n_inputs` (maxpool and dropout mutation is
a no-op; the spec-modelled width mutation touches only `n_outputs`). -/
lemma layer_mutate_fst_n_inputs (l : Layer) (ev : Option ℤ) :
    (layer_mutate l ev).1.n_inputs = l.n_inputs := by
  unfold layer_mutate neural_layer_connected_mutate
  cases h : l.layer_type <;> cases ev <;> simp

/-- When `layer_mutate` reports no alteration, the layer is unchanged. -/
lemma layer_mutate_of_not_changed (l : Layer) (ev : Option ℤ)
    (h : (layer_mutate l ev).2 = false) : (layer_mutate l ev).1 = l := by
  unfold layer_mutate neural_layer_connected_mutate at h ⊢
  cases ht : l.layer_type <;> cases ev <;> simp_all

/-- Resizing a dropout or width-mutable layer sets its input width to the
previous layer's output width. -/
lemma layer_resize_n_inputs (l prev : Layer)
    (h : l.layer_type = .dropout ∨ l.layer_type = .connected) :
    (layer_resize l prev).n_inputs = prev.n_outputs := by
  unfold layer_resize neural_layer_dropout_resize neural_layer_connected_resize
  rcases h with h | h <;> rw [h]

/-- The tail-to-head net of the C2 counterexample: a width-mutable layer
(3 → 4) feeding a dropout layer feeding another dropout layer; widths are
consistent. -/
def mutateCounterNet : List Layer :=
  [{ layer_type := .connected, n_inputs := 3, n_outputs := 4 },
   { layer_type := .dropout, n_inputs := 4, n_outputs := 4 },
   { layer_type := .dropout, n_inputs := 4, n_outputs := 4 }]

/-- C2 counterexample: mutating the first layer's width from 4 to 5 resizes
the adjacent dropout layer (whose own output width thereby becomes 5), but
the third layer is NOT resized, because `do_resize` is recomputed from
`layer_mutate` alone (dropout mutation returns false) after the resize
already happened; the resulting widths 3→5, 5→5, 4→4 are inconsistent, so
the claimed invariant fails. -/
theorem C2_counterexample :
    widthsConsistent mutateCounterNet = true ∧
    ((neural_mutate mutateCounterNet [some 5, none, none]).1.map
      (fun l => (l.n_inputs, l.n_outputs)) = [(3, 5), (5, 5), (4, 4)]) ∧
    widthsConsistent (neural_mutate mutateCounterNet [some 5, none, none]).1 =
      false :=
  ⟨rfl, by decide, rfl⟩

/-- On a one-layer remainder, the loop body reduces to: resize if requested,
then mutate. -/
lemma neural_mutate_go_single (prev : Layer) (dr mod : Bool) (b : Layer)
    (evs : List (Option ℤ)) :
    (neural_mutate_go (some prev) dr mod [b] evs).1 =
      [(layer_mutate (if dr then layer_resize b prev else b)
        (evs.headD none)).1] := by
  cases dr <;> rfl

/-- C2 amended: whenever a layer's mutation changes its output width,
`neural_mutate` resizes the immediately downstream layer with the mutated
layer as predecessor, so for a two-layer network (the downstream layer a
dropout or width-mutable layer, whose resize adopts the predecessor's output
width) width consistency is restored; with three or more layers the
restoration does not propagate past a resized layer whose own output width
changed (see the counterexample). -/
theorem C2_neural_mutate_two_layer (a b : Layer) (evs : List (Option ℤ))
    (hcons : widthsConsistent [a, b] = true)
    (hb : b.layer_type = .dropout ∨ b.layer_type = .connected) :
    widthsConsistent (neural_mutate [a, b] evs).1 = true := by
  have hcons2 : b.n_inputs = a.n_outputs := by
    have h := hcons
    simp only [widthsConsistent, Bool.and_true, beq_iff_eq] at h
    exact h
  show widthsConsistent (neural_mutate_go none false false [a, b] evs).1 = true
  have hgo : (neural_mutate_go none false false [a, b] evs).1 =
      (layer_mutate a (evs.headD none)).1 ::
        (neural_mutate_go (some (layer_mutate a (evs.headD none)).1)
          ((layer_mutate a (evs.headD none)).2 &&
            ((layer_mutate a (evs.headD none)).1.n_outputs != a.n_outputs))
          (false || (layer_mutate a (evs.headD none)).2) [b] evs.tail).1 := rfl
  rw [hgo, neural_mutate_go_single]
  simp only [widthsConsistent, Bool.and_true, beq_iff_eq]
  by_cases hdr : ((layer_mutate a (evs.headD none)).2 &&
      ((layer_mutate a (evs.headD none)).1.n_outputs != a.n_outputs)) = true
  · rw [if_pos hdr, layer_mutate_fst_n_inputs,
      layer_resize_n_inputs b (layer_mutate a (evs.headD none)).1 hb]
  · rw [if_neg hdr, layer_mutate_fst_n_inputs, hcons2]
    simp only [Bool.not_eq_true] at hdr
    rcases Bool.and_eq_false_iff.mp hdr with hc | hne
    · rw [layer_mutate_of_not_changed a (evs.headD none) hc]
    · exact (by simpa using hne : _ = a.n_outputs).symm

/-- Instance of `C2_neural_mutate_two_layer`: a width-mutable 2→3 layer
followed by a dropout layer; mutating the width to 6 leaves a consistent
two-layer network. -/
theorem C2_neural_mutate_two_layer_witness :
    widthsConsistent (neural_mutate
      [{ layer_type := .connected, n_inputs := 2, n_outputs := 3 },
       { layer_type := .dropout, n_inputs := 3, n_outputs := 3 }]
      [some 6]).1 = true :=
  C2_neural_mutate_two_layer
    { layer_type := .connected, n_inputs := 2, n_outputs := 3 }
    { layer_type := .dropout, n_inputs := 3, n_outputs := 3 }
    [some 6] (by decide) (Or.inl rfl)

/-! ## Claim C8: dropout forward pass -/

/-- C8: when the engine is not exploring, `neural_layer_dropout_forward`
copies the input through unchanged on every lane `i < n_inputs` and is
deterministic — the result does not depend on the RNG stream at all, so two
runs on equal inputs are identical; when exploring, every output lane is
either `0` (input dropped) or `input[i] * scale`; and
`neural_layer_dropout_init` sets `scale = 1/(1 - probability)`. -/
theorem C8_neural_layer_dropout_forward (l : Layer) (input rng rng2 : List ℚ)
    (hin : l.n_inputs.toNat ≤ input.length) :
    (∀ i : ℕ, i < l.n_inputs.toNat →
      (neural_layer_dropout_forward l false rng input).output.getD i 0 =
        input.getD i 0) ∧
    (neural_layer_dropout_forward l false rng input =
      neural_layer_dropout_forward l false rng2 input) ∧
    (∀ i : ℕ, i < l.n_inputs.toNat →
      (neural_layer_dropout_forward l true rng input).output.getD i 0 = 0 ∨
      (neural_layer_dropout_forward l true rng input).output.getD i 0 =
        input.getD i 0 * l.scale) ∧
    (∀ n : ℤ, ∀ p : ℚ, 1 ≤ n → n ≤ N_INPUTS_MAX →
      ∃ l0, neural_layer_dropout_init n p = .ok l0 ∧
        l0.scale = 1 / (1 - p) ∧ l0.probability = p) := by
  refine ⟨?_, ?_, ?_, ?_⟩
  · intro i hi
    show ((input.take l.n_inputs.toNat ++ l.output.drop l.n_inputs.toNat).getD
      i 0) = input.getD i 0
    have hlt : i < (input.take l.n_inputs.toNat).length := by
      rw [List.length_take]
      omega
    rw [List.getD_append _ _ _ _ hlt,
      List.getD_eq_getElem (input.take l.n_inputs.toNat) 0 hlt,
      List.getD_eq_getElem input 0 (by omega), List.getElem_take]
  · rfl
  · intro i hi
    have hout : (neural_layer_dropout_forward l true rng input).output.getD
        i 0 = if rng.getD i 0 < l.probability then 0
          else input.getD i 0 * l.scale := by
      show ((List.range l.n_inputs.toNat).map (fun i =>
          if rng.getD i 0 < l.probability then 0
          else input.getD i 0 * l.scale) ++
          l.output.drop l.n_inputs.toNat).getD i 0 = _
      rw [List.getD_append _ _ _ _ (by simpa using hi),
        getD_map_range _ _ _ hi]
    rw [hout]
    by_cases hc : rng.getD i 0 < l.probability
    · left
      rw [if_pos hc]
    · right
      rw [if_neg hc]
  · intro n p h1 h2
    unfold neural_layer_dropout_init
    rw [if_neg (by omega)]
    exact ⟨_, rfl, rfl, rfl⟩

/-- Instance of `C8_neural_layer_dropout_forward` on a two-input dropout
layer with probability 1/4 and RNG draws 0 and 1/2: lane 0 is dropped to 0,
lane 1 is scaled by 4/3. -/
theorem C8_neural_layer_dropout_forward_witness :
    ((neural_layer_dropout_forward
        { layer_type := .dropout, n_inputs := 2, n_outputs := 2,
          probability := 1/4, scale := 4/3, output := [0, 0] }
        false [0, 1/2] [3, 6]).output.getD 0 0 = 3) ∧
    ((neural_layer_dropout_forward
        { layer_type := .dropout, n_inputs := 2, n_outputs := 2,
          probability := 1/4, scale := 4/3, output := [0, 0] }
        true [0, 1/2] [3, 6]).output.getD 1 0 = 0 ∨
     (neural_layer_dropout_forward
        { layer_type := .dropout, n_inputs := 2, n_outputs := 2,
          probability := 1/4, scale := 4/3, output := [0, 0] }
        true [0, 1/2] [3, 6]).output.getD 1 0 = 6 * (4/3)) := by
  constructor
  · have h := (C8_neural_layer_dropout_forward
      { layer_type := .dropout, n_inputs := 2, n_outputs := 2,
        probability := 1/4, scale := 4/3, output := [0, 0] }
      [3, 6] [0, 1/2] [0, 1/2] (by norm_num)).1 0 (by norm_num)
    simpa using h
  · have h := (C8_neural_layer_dropout_forward
      { layer_type := .dropout, n_inputs := 2, n_outputs := 2,
        probability := 1/4, scale := 4/3, output := [0, 0] }
      [3, 6] [0, 1/2] [0, 1/2] (by norm_num)).2.2.1 1 (by norm_num)
    simpa using h

/-! ## Claim C9: maxpool window indices -/

/-- The window row `cur_h` examined by `max_pool` for output row `i`,
window offset `n`. -/
def poolCurH (l : Layer) (i n : ℤ) : ℤ := Int.tdiv (-l.pad) 2 + i * l.stride + n

/-- The window column `cur_w` examined by `max_pool` for output column `j`,
window offset `m`. -/
def poolCurW (l : Layer) (j m : ℤ) : ℤ := Int.tdiv (-l.pad) 2 + j * l.stride + m

/-- The flat input index examined by `max_pool` at window cell `(n, m)` of
output position `(i, j, k)`. -/
def poolIndex (l : Layer) (i j k n m : ℤ) : ℤ :=
  poolCurW l j m + l.width * (poolCurH l i n + l.height * k)

/-- A window cell that is in bounds AND whose input value exceeds
`-DBL_MAX`: only such a cell can set `max_index` when the running maximum is
still at its initial `-DBL_MAX` (the comparison is strict). -/
def liveCell (l : Layer) (input : List ℚ) (i j k n m : ℤ) : Prop :=
  0 ≤ poolCurH l i n ∧ poolCurH l i n < l.height ∧
  0 ≤ poolCurW l j m ∧ poolCurW l j m < l.width ∧
  negDblMax < input.getD (poolIndex l i j k n m).toNat 0

lemma max_pool_cell_eq (l : Layer) (input : List ℚ) (i j k n m : ℤ)
    (acc : ℚ × ℤ) :
    max_pool_cell l input i j k n m acc =
      if 0 ≤ poolCurH l i n ∧ poolCurH l i n < l.height ∧
          0 ≤ poolCurW l j m ∧ poolCurW l j m < l.width ∧
          acc.1 < input.getD (poolIndex l i j k n m).toNat 0 then
        (input.getD (poolIndex l i j k n m).toNat 0, poolIndex l i j k n m)
      else acc := rfl

/-- An in-bounds window cell examines a flat index inside
`[0, height·width·channels)`. -/
lemma poolIndex_bounds (l : Layer) (i j k n m : ℤ) (hk0 : 0 ≤ k)
    (hk : k < l.channels)
    (h1 : 0 ≤ poolCurH l i n) (h2 : poolCurH l i n < l.height)
    (h3 : 0 ≤ poolCurW l j m) (h4 : poolCurW l j m < l.width) :
    0 ≤ poolIndex l i j k n m ∧
      poolIndex l i j k n m < l.height * l.width * l.channels := by
  unfold poolIndex
  have hh : 1 ≤ l.height := by omega
  have hw : 1 ≤ l.width := by omega
  constructor
  · have hz : 0 ≤ poolCurH l i n + l.height * k :=
      add_nonneg h1 (mul_nonneg (by omega) hk0)
    exact add_nonneg h3 (mul_nonneg (by omega) hz)
  · have e0 : poolCurH l i n ≤ l.height - 1 := by omega
    have e1 : poolCurH l i n + l.height * k ≤ l.height * (k + 1) - 1 := by
      have : l.height * (k + 1) = l.height * k + l.height := by ring
      linarith
    have e2 : l.width * (poolCurH l i n + l.height * k) ≤
        l.width * (l.height * (k + 1) - 1) :=
      mul_le_mul_of_nonneg_left e1 (by omega)
    have e3 : l.height * (k + 1) ≤ l.height * l.channels :=
      mul_le_mul_of_nonneg_left (by omega) (by omega)
    have e4 : l.width * (l.height * (k + 1)) ≤ l.width * (l.height * l.channels) :=
      mul_le_mul_of_nonneg_left e3 (by omega)
    have e5 : l.width * (l.height * (k + 1) - 1) =
        l.width * (l.height * (k + 1)) - l.width := by ring
    have e6 : l.height * l.width * l.channels =
        l.width * (l.height * l.channels) := by ring
    linarith

/-- The invariant carried through the `max_pool` scan: either nothing has
been selected yet (`max_index = -1`, `max = -DBL_MAX`) or the selected index
is inside `[0, height·width·channels)`. -/
lemma max_pool_cell_step (l : Layer) (input : List ℚ) (i j k n m : ℤ)
    (hk0 : 0 ≤ k) (hk : k < l.channels) (acc : ℚ × ℤ)
    (h : (acc.2 = -1 ∧ acc.1 = negDblMax) ∨
      (0 ≤ acc.2 ∧ acc.2 < l.height * l.width * l.channels)) :
    ((max_pool_cell l input i j k n m acc).2 = -1 ∧
      (max_pool_cell l input i j k n m acc).1 = negDblMax) ∨
    (0 ≤ (max_pool_cell l input i j k n m acc).2 ∧
      (max_pool_cell l input i j k n m acc).2 <
        l.height * l.width * l.channels) := by
  rw [max_pool_cell_eq]
  split
  · next hc =>
    right
    exact poolIndex_bounds l i j k n m hk0 hk hc.1 hc.2.1 hc.2.2.1 hc.2.2.2.1
  · exact h

/-- Processing a live cell while nothing has been selected yet always
selects an in-range index. -/
lemma max_pool_cell_fires (l : Layer) (input : List ℚ) (i j k n m : ℤ)
    (hk0 : 0 ≤ k) (hk : k < l.channels)
    (hl : liveCell l input i j k n m) (acc : ℚ × ℤ)
    (h : acc.2 = -1 ∧ acc.1 = negDblMax) :
    0 ≤ (max_pool_cell l input i j k n m acc).2 ∧
      (max_pool_cell l input i j k n m acc).2 <
        l.height * l.width * l.channels := by
  obtain ⟨hl1, hl2, hl3, hl4, hl5⟩ := hl
  rw [max_pool_cell_eq, if_pos ⟨hl1, hl2, hl3, hl4, by rw [h.2]; exact hl5⟩]
  exact poolIndex_bounds l i j k n m hk0 hk hl1 hl2 hl3 hl4

/-- A fold preserves an invariant preserved by each step. -/
lemma foldl_pres {α β : Type} (f : β → α → β) (P : β → Prop)
    (hstep : ∀ b a, P b → P (f b a)) :
    ∀ (xs : List α) (b), P b → P (xs.foldl f b)
  | [], b, hb => hb
  | x :: rest, b, hb => foldl_pres f P hstep rest (f b x) (hstep b x hb)

/-- A fold whose steps keep `Q ∨ P`, whose steps preserve `P`, and which
contains an element that turns `Q` into `P`, ends in `P`. -/
lemma foldl_estab {α β : Type} (f : β → α → β) (P Q : β → Prop)
    (hQ : ∀ b a, Q b → Q (f b a) ∨ P (f b a))
    (hP : ∀ b a, P b → P (f b a)) (x0 : α)
    (hfire : ∀ b, Q b → P (f b x0)) :
    ∀ (xs : List α) (b), x0 ∈ xs → (Q b ∨ P b) → P (xs.foldl f b)
  | [], b, hmem, _ => absurd hmem (List.not_mem_nil x0)
  | x :: rest, b, hmem, hb => by
      rcases List.mem_cons.mp hmem with rfl | hmem2
      · have hP2 : P (f b x0) := by
          rcases hb with hq | hp
          · exact hfire b hq
          · exact hP b x0 hp
        exact foldl_pres f P hP rest (f b x0) hP2
      · have hb2 : Q (f b x) ∨ P (f b x) := by
          rcases hb with hq | hp
          · exact hQ b x hq
          · exact Or.inr (hP b x hp)
        exact foldl_estab f P Q hQ hP x0 hfire rest (f b x) hmem2 hb2

/-- A cell step keeps an already-selected in-range index in range. -/
lemma max_pool_cell_keeps (l : Layer) (input : List ℚ) (i j k n m : ℤ)
    (hk0 : 0 ≤ k) (hk : k < l.channels) (acc : ℚ × ℤ)
    (h : 0 ≤ acc.2 ∧ acc.2 < l.height * l.width * l.channels) :
    0 ≤ (max_pool_cell l input i j k n m acc).2 ∧
      (max_pool_cell l input i j k n m acc).2 <
        l.height * l.width * l.channels := by
  rw [max_pool_cell_eq]
  split
  · next hc =>
    exact poolIndex_bounds l i j k n m hk0 hk hc.1 hc.2.1 hc.2.2.1 hc.2.2.2.1
  · exact h

/-- The index selected by a whole `max_pool` window scan is in range
provided the window has a live cell and the channel index is in range. -/
lemma max_pool_bounds (l : Layer) (input : List ℚ) (i j k : ℤ)
    (hk0 : 0 ≤ k) (hk : k < l.channels)
    (hlive : ∃ n m : ℤ, 0 ≤ n ∧ n < l.size ∧ 0 ≤ m ∧ m < l.size ∧
      liveCell l input i j k n m) :
    0 ≤ max_pool l input i j k ∧
      max_pool l input i j k < l.height * l.width * l.channels := by
  obtain ⟨n0, m0, hn0, hn1, hm0, hm1, hcell⟩ := hlive
  unfold max_pool
  have hn0mem : n0.toNat ∈ List.range l.size.toNat := by
    rw [List.mem_range]
    omega
  have hm0mem : m0.toNat ∈ List.range l.size.toNat := by
    rw [List.mem_range]
    omega
  have hcast_n : ((n0.toNat : ℤ)) = n0 := Int.toNat_of_nonneg hn0
  have hcast_m : ((m0.toNat : ℤ)) = m0 := Int.toNat_of_nonneg hm0
  refine foldl_estab _
    (fun acc : ℚ × ℤ => 0 ≤ acc.2 ∧ acc.2 < l.height * l.width * l.channels)
    (fun acc : ℚ × ℤ => acc.2 = -1 ∧ acc.1 = negDblMax)
    ?_ ?_ n0.toNat ?_ (List.range l.size.toNat) (negDblMax, -1) hn0mem
    (Or.inl ⟨rfl, rfl⟩)
  · intro b a hb
    exact foldl_pres _ (fun acc : ℚ × ℤ =>
        (acc.2 = -1 ∧ acc.1 = negDblMax) ∨
        (0 ≤ acc.2 ∧ acc.2 < l.height * l.width * l.channels))
      (fun b2 a2 hb2 => max_pool_cell_step l input i j k _ _ hk0 hk b2 hb2)
      _ b (Or.inl hb)
  · intro b a hb
    exact foldl_pres _ (fun acc : ℚ × ℤ =>
        0 ≤ acc.2 ∧ acc.2 < l.height * l.width * l.channels)
      (fun b2 a2 hb2 => max_pool_cell_keeps l input i j k _ _ hk0 hk b2 hb2)
      _ b hb
  · intro b hb
    refine foldl_estab _
      (fun acc : ℚ × ℤ => 0 ≤ acc.2 ∧ acc.2 < l.height * l.width * l.channels)
      (fun acc : ℚ × ℤ => acc.2 = -1 ∧ acc.1 = negDblMax)
      (fun b2 a2 hb2 => max_pool_cell_step l input i j k _ _ hk0 hk b2
        (Or.inl hb2))
      (fun b2 a2 hb2 => max_pool_cell_keeps l input i j k _ _ hk0 hk b2 hb2)
      m0.toNat ?_ _ b hm0mem (Or.inl hb)
    intro b2 hb2
    rw [hcast_n, hcast_m]
    exact max_pool_cell_fires l input i j k n0 m0 hk0 hk hcell b2 hb2

/-- A fold preserves an invariant preserved by each step taken at a list
member. -/
lemma foldl_pres_mem {α β : Type} (f : β → α → β) (P : β → Prop) :
    ∀ (xs : List α), (∀ b a, a ∈ xs → P b → P (f b a)) →
      ∀ b, P b → P (xs.foldl f b)
  | [], _, b, hb => hb
  | x :: rest, hstep, b, hb =>
      foldl_pres_mem f P rest
        (fun b2 a ha hb2 => hstep b2 a (List.mem_cons_of_mem _ ha) hb2)
        (f b x) (hstep b x (List.mem_cons_self _ _) hb)

/-- C9 amended: provided every pooling window (over the out-grid positions
the forward pass visits) contains at least one in-bounds cell whose input
value is strictly greater than `-DBL_MAX`, and the pre-existing `indexes`
entries are in range, every entry of `l->indexes` after
`neural_layer_maxpool_forward` lies in `[0, n_inputs)`.  The strict
`> -DBL_MAX` condition is necessary: a window whose in-bounds inputs all
equal `-DBL_MAX` (a finite, non-NaN double) leaves `max_index = -1` (see the
counterexample). -/
theorem C9_maxpool_forward_index_bounds (l : Layer) (input : List ℚ)
    (hw : l.n_inputs = l.height * l.width * l.channels)
    (hold : ∀ idx ∈ l.indexes, 0 ≤ idx ∧ idx < l.n_inputs)
    (hlive : ∀ i j k : ℤ, 0 ≤ i → i < l.out_h → 0 ≤ j → j < l.out_w →
      0 ≤ k → k < l.channels →
      ∃ n m : ℤ, 0 ≤ n ∧ n < l.size ∧ 0 ≤ m ∧ m < l.size ∧
        liveCell l input i j k n m) :
    ∀ idx ∈ (neural_layer_maxpool_forward l input).indexes,
      0 ≤ idx ∧ idx < l.n_inputs := by
  show ∀ idx ∈ ((List.range l.channels.toNat).foldl
      (fun (acc : List ℤ × List ℚ) (k : ℕ) =>
        (List.range l.out_h.toNat).foldl
          (fun (acc : List ℤ × List ℚ) (i : ℕ) =>
            (List.range l.out_w.toNat).foldl
              (fun (acc : List ℤ × List ℚ) (j : ℕ) =>
                maxpool_forward_cell l input (k : ℤ) (i : ℤ) (j : ℤ) acc)
              acc)
          acc)
      (l.indexes, l.output)).1, 0 ≤ idx ∧ idx < l.n_inputs
  refine foldl_pres_mem _
    (fun acc : List ℤ × List ℚ => ∀ idx ∈ acc.1, 0 ≤ idx ∧ idx < l.n_inputs)
    _ ?_ _ hold
  intro b1 k hk hb1
  refine foldl_pres_mem _
    (fun acc : List ℤ × List ℚ => ∀ idx ∈ acc.1, 0 ≤ idx ∧ idx < l.n_inputs)
    _ ?_ _ hb1
  intro b2 i hi hb2
  refine foldl_pres_mem _
    (fun acc : List ℤ × List ℚ => ∀ idx ∈ acc.1, 0 ≤ idx ∧ idx < l.n_inputs)
    _ ?_ _ hb2
  intro b3 j hj hb3
  intro idx hidx
  rw [List.mem_range] at hk hi hj
  have hmp : 0 ≤ max_pool l input (i : ℤ) (j : ℤ) (k : ℤ) ∧
      max_pool l input (i : ℤ) (j : ℤ) (k : ℤ) <
        l.height * l.width * l.channels := by
    refine max_pool_bounds l input _ _ _ (by omega) (by omega) ?_
    exact hlive (i : ℤ) (j : ℤ) (k : ℤ) (by omega) (by omega) (by omega)
      (by omega) (by omega) (by omega)
  rcases List.mem_or_eq_of_mem_set hidx with hmem | heq
  · exact hb3 idx hmem
  · rw [heq, hw]
    exact hmp

/-- The layer built by `neural_layer_maxpool_init 1 1 1 1 1 0`: a 1×1 input,
1×1 window, stride 1, no padding. -/
def maxpoolCounterLayer : Layer :=
  { layer_type := .maxpool, height := 1, width := 1, channels := 1, pad := 0,
    out_w := 1, out_h := 1, out_c := 1, n_outputs := 1, max_outputs := 1,
    n_inputs := 1, size := 1, stride := 1, indexes := [0], output := [0],
    delta := [0] }

/-- C9 counterexample: on the 1×1 maxpool layer produced by
`neural_layer_maxpool_init`, the single pooling window consists of the single
in-bounds position (0,0), yet feeding the finite non-NaN input `-DBL_MAX`
stores the out-of-range index `-1` in `l->indexes` (the scan starts with
`max = -DBL_MAX` and only a strictly greater value can set `max_index`), so
the forward pass then reads `input[-1]`. -/
theorem C9_counterexample :
    neural_layer_maxpool_init 1 1 1 1 1 0 = .ok maxpoolCounterLayer ∧
    maxpoolCounterLayer.n_inputs = 1 ∧
    (0 ≤ poolCurH maxpoolCounterLayer 0 0 ∧
      poolCurH maxpoolCounterLayer 0 0 < maxpoolCounterLayer.height ∧
      0 ≤ poolCurW maxpoolCounterLayer 0 0 ∧
      poolCurW maxpoolCounterLayer 0 0 < maxpoolCounterLayer.width) ∧
    (neural_layer_maxpool_forward maxpoolCounterLayer [negDblMax]).indexes =
      [-1] := by
  refine ⟨rfl, rfl, ⟨by decide, by decide, by decide, by decide⟩, ?_⟩
  have hr1 : List.range 1 = [0] := rfl
  have hmp : max_pool maxpoolCounterLayer [negDblMax] 0 0 0 = -1 := by
    have hcell : max_pool_cell maxpoolCounterLayer [negDblMax] 0 0 0 0 0
        (negDblMax, -1) = (negDblMax, -1) := by
      rw [max_pool_cell_eq]
      exact if_neg (fun hc => lt_irrefl negDblMax hc.2.2.2.2)
    show ((List.range 1).foldl (fun (acc : ℚ × ℤ) (n : ℕ) =>
        (List.range 1).foldl (fun (acc : ℚ × ℤ) (m : ℕ) =>
            max_pool_cell maxpoolCounterLayer [negDblMax] 0 0
              0 (n : ℤ) (m : ℤ) acc) acc)
      (negDblMax, -1)).2 = -1
    rw [hr1, List.foldl_cons, List.foldl_nil, List.foldl_cons, List.foldl_nil]
    show (max_pool_cell maxpoolCounterLayer [negDblMax] 0 0 0 0 0
      (negDblMax, -1)).2 = -1
    rw [hcell]
  show ((List.range 1).foldl
      (fun (acc : List ℤ × List ℚ) (k : ℕ) =>
        (List.range 1).foldl
          (fun (acc : List ℤ × List ℚ) (i : ℕ) =>
            (List.range 1).foldl
              (fun (acc : List ℤ × List ℚ) (j : ℕ) =>
                maxpool_forward_cell maxpoolCounterLayer [negDblMax]
                  (k : ℤ) (i : ℤ) (j : ℤ) acc)
              acc)
          acc)
      ([0], [0])).1 = [-1]
  rw [hr1, List.foldl_cons, List.foldl_nil, List.foldl_cons,
    List.foldl_nil, List.foldl_cons, List.foldl_nil]
  show (maxpool_forward_cell maxpoolCounterLayer [negDblMax] 0 0 0
    ([0], [0])).1 = [-1]
  unfold maxpool_forward_cell
  rw [hmp]
  rfl

/-- Instance of `C9_maxpool_forward_index_bounds`: the same 1×1 layer on the
ordinary input `[5]` stores only the in-range index 0. -/
theorem C9_maxpool_forward_index_bounds_witness :
    (neural_layer_maxpool_forward maxpoolCounterLayer
      [(5 : ℚ)]).indexes.getD 0 0 = 0 ∧
    0 ≤ (neural_layer_maxpool_forward maxpoolCounterLayer
      [(5 : ℚ)]).indexes.getD 0 0 ∧
    (neural_layer_maxpool_forward maxpoolCounterLayer
      [(5 : ℚ)]).indexes.getD 0 0 < maxpoolCounterLayer.n_inputs := by
  have h5 : negDblMax < [(5 : ℚ)].getD
      (poolIndex maxpoolCounterLayer 0 0 0 0 0).toNat 0 := by
    show negDblMax < (5 : ℚ)
    unfold negDblMax
    norm_num
  have hr1 : List.range 1 = [0] := rfl
  have hmp : max_pool maxpoolCounterLayer [(5 : ℚ)] 0 0 0 = 0 := by
    show ((List.range 1).foldl (fun (acc : ℚ × ℤ) (n : ℕ) =>
        (List.range 1).foldl (fun (acc : ℚ × ℤ) (m : ℕ) =>
            max_pool_cell maxpoolCounterLayer [(5 : ℚ)] 0 0
              0 (n : ℤ) (m : ℤ) acc) acc)
      (negDblMax, -1)).2 = 0
    rw [hr1, List.foldl_cons, List.foldl_nil, List.foldl_cons, List.foldl_nil]
    show (max_pool_cell maxpoolCounterLayer [(5 : ℚ)] 0 0 0 0 0
      (negDblMax, -1)).2 = 0
    rw [max_pool_cell_eq,
      if_pos ⟨by decide, by decide, by decide, by decide, h5⟩]
    decide
  have hind : (neural_layer_maxpool_forward maxpoolCounterLayer
      [(5 : ℚ)]).indexes = [0] := by
    show ((List.range 1).foldl
        (fun (acc : List ℤ × List ℚ) (k : ℕ) =>
          (List.range 1).foldl
            (fun (acc : List ℤ × List ℚ) (i : ℕ) =>
              (List.range 1).foldl
                (fun (acc : List ℤ × List ℚ) (j : ℕ) =>
                  maxpool_forward_cell maxpoolCounterLayer [(5 : ℚ)]
                    (k : ℤ) (i : ℤ) (j : ℤ) acc)
                acc)
            acc)
        ([0], [0])).1 = [0]
    rw [hr1, List.foldl_cons, List.foldl_nil, List.foldl_cons,
      List.foldl_nil, List.foldl_cons, List.foldl_nil]
    show (maxpool_forward_cell maxpoolCounterLayer [(5 : ℚ)] 0 0 0
      ([0], [0])).1 = [0]
    unfold maxpool_forward_cell
    rw [hmp]
    rfl
  have hb := C9_maxpool_forward_index_bounds maxpoolCounterLayer [(5 : ℚ)]
    (by decide)
    (by
      intro idx hidx
      have h0 : idx = 0 := List.mem_singleton.mp hidx
      subst h0
      exact ⟨by decide, by decide⟩)
    (by
      intro i j k hi0 hi hj0 hj hk0 hk
      simp only [maxpoolCounterLayer] at hi hj hk
      have hieq : i = 0 := by omega
      have hjeq : j = 0 := by omega
      have hkeq : k = 0 := by omega
      subst hieq
      subst hjeq
      subst hkeq
      exact ⟨0, 0, by decide, by decide, by decide, by decide, by decide,
        by decide, by decide, by decide, h5⟩)
  have hmem : (neural_layer_maxpool_forward maxpoolCounterLayer
      [(5 : ℚ)]).indexes.getD 0 0 ∈
      (neural_layer_maxpool_forward maxpoolCounterLayer
        [(5 : ℚ)]).indexes := by
    rw [hind]
    decide
  exact ⟨by simp [hind], (hb _ hmem).1, (hb _ hmem).2⟩

/-! ## Claim C7: neural_learn performs one backprop step -/

/-- The reset phase of `neural_learn`:
`memset(l->delta, 0, sizeof(double) * l->n_outputs)` zeroes the first
`n_outputs` entries of the delta buffer. -/
def layer_zero_delta (l : Layer) : Layer :=
  { l with delta := List.replicate l.n_outputs.toNat 0 ++
      l.delta.drop l.n_outputs.toNat }

/-- The output-layer error initialisation of `neural_learn`:
`p->delta[i] = truth[i] - p->output[i]` for each output of the head layer
(`p = net->head->layer`). -/
def set_output_delta (truth : List ℚ) (ls : List Layer) : List Layer :=
  match ls.getLast? with
  | some p =>
    let d2 := (List.range p.n_outputs.toNat).map
        (fun i => truth.getD i 0 - p.output.getD i 0) ++
      p.delta.drop p.n_outputs.toNat
    ls.set (ls.length - 1) { p with delta := d2 }
  | none => ls

/-- The backward call of the layer at list index `jj + 1`: it hands the
next-inner layer's (index `jj`) output and delta buffer to `layer_backward`,
which writes the updated delta back into that buffer. -/
def learn_backward_pair (input : List ℚ) (ls : List Layer) (jj : ℕ) :
    List Layer :=
  match ls[jj]?, ls[jj + 1]? with
  | some prevL, some l =>
    match layer_backward l prevL.output (some prevL.delta) with
    | some d2 => ls.set jj { prevL with delta := d2 }
    | none => ls
  | _, _ => ls

/-- The backward loop `for (iter = net->head; iter; iter = iter->next)`,
rendered as a countdown over the list indices from the head to the tail.
The final iteration (index 0, the tail layer) passes the raw `input` and a
NULL delta pointer to `layer_backward`, which therefore writes nothing. -/
def learn_backward_from (input : List ℚ) (ls : List Layer) : ℕ → List Layer
  | 0 => ls
  | j + 1 => learn_backward_from input (learn_backward_pair input ls j) j

/-- Model of `neural_learn` (neural.c, lines 275-302), phase by phase in
source order: reset every delta, set the output-layer error, one backward
pass from the head to the tail, then one `layer_update` per layer.  An empty
network (NULL head) is modelled as a no-op. -/
def neural_learn (ls : List Layer) (truth input : List ℚ) : List Layer :=
  match ls with
  | [] => []
  | _ :: _ =>
    (learn_backward_from input
        (set_output_delta truth (ls.map layer_zero_delta))
        (ls.length - 1)).map layer_update

/-- The claim's reading of the backward phase: walk from the output layer to
the input layer (the argument list is head-first), each layer sending its
delta into the next-inner layer's delta buffer; the input layer receives the
raw input with a NULL delta. -/
def backwardSpec (input : List ℚ) : List Layer → List Layer
  | [] => []
  | [l] => [l]
  | l :: inner :: rest =>
    match layer_backward l inner.output (some inner.delta) with
    | some d2 => l :: backwardSpec input ({ inner with delta := d2 } :: rest)
    | none => l :: backwardSpec input (inner :: rest)
termination_by ls => ls.length

/-- The claim's phase description of `neural_learn`: zero every delta, set
the output-layer delta to `truth - output`, backward-propagate once from the
output layer to the input layer, then apply exactly one `layer_update` to
every layer. -/
def neural_learn_spec (ls : List Layer) (truth input : List ℚ) : List Layer :=
  ((backwardSpec input
      ((set_output_delta truth (ls.map layer_zero_delta)).reverse)).reverse).map
    layer_update

lemma set_append_right {α : Type} (l1 : List α) :
    ∀ (l2 : List α) (k : ℕ) (x : α),
      (l1 ++ l2).set (l1.length + k) x = l1 ++ l2.set k x := by
  induction l1 with
  | nil =>
    intro l2 k x
    simp
  | cons a l1 ih =>
    intro l2 k x
    have hi : (a :: l1).length + k = (l1.length + k) + 1 := by
      simp only [List.length_cons]
      omega
    rw [hi]
    show (a :: (l1 ++ l2)).set ((l1.length + k) + 1) x = _
    rw [List.set_cons_succ, ih l2 k x]
    rfl

lemma backwardSpec_cons_cons (input : List ℚ) (l inner : Layer)
    (rest : List Layer) :
    backwardSpec input (l :: inner :: rest) =
      (match layer_backward l inner.output (some inner.delta) with
        | some d2 => l :: backwardSpec input ({ inner with delta := d2 } :: rest)
        | none => l :: backwardSpec input (inner :: rest)) := by
  rw [backwardSpec]

/-- The index-countdown backward loop agrees with the head-first structural
walk: running the countdown from index `j` on `ls1 ++ ls2` with
`ls1.length = j + 1` rewrites exactly the `ls1` prefix. -/
lemma learn_backward_eq (input : List ℚ) :
    ∀ (j : ℕ) (ls1 ls2 : List Layer), ls1.length = j + 1 →
      learn_backward_from input (ls1 ++ ls2) j =
        (backwardSpec input ls1.reverse).reverse ++ ls2 := by
  intro j
  induction j with
  | zero =>
    intro ls1 ls2 hlen
    rcases ls1 with _ | ⟨x, t⟩
    · simp at hlen
    · rcases t with _ | ⟨y, u⟩
      · simp [learn_backward_from, backwardSpec]
      · simp at hlen
  | succ j ih =>
    intro ls1 ls2 hlen
    obtain ⟨zs, p, q, rfl⟩ : ∃ zs p q, ls1 = zs ++ [p, q] := by
      rcases hrev : ls1.reverse with _ | ⟨q, tl⟩
      · exfalso
        have hc := congrArg List.length hrev
        simp only [List.length_reverse, List.length_nil] at hc
        omega
      rcases tl with _ | ⟨p, ws⟩
      · exfalso
        have hc := congrArg List.length hrev
        simp only [List.length_reverse, List.length_cons, List.length_nil]
          at hc
        omega
      refine ⟨ws.reverse, p, q, ?_⟩
      have hc := congrArg List.reverse hrev
      simp at hc
      rw [hc]
    have hzs : zs.length = j := by
      simp only [List.length_append, List.length_cons, List.length_nil]
        at hlen
      omega
    show learn_backward_from input ((zs ++ [p, q]) ++ ls2) (j + 1) = _
    unfold learn_backward_from
    have hassoc : (zs ++ [p, q]) ++ ls2 = zs ++ ([p, q] ++ ls2) := by
      rw [List.append_assoc]
    have hgetp : ((zs ++ [p, q]) ++ ls2)[j]? = some p := by
      rw [hassoc, ← hzs, List.getElem?_append_right (le_refl zs.length)]
      simp
    have hgetq : ((zs ++ [p, q]) ++ ls2)[j + 1]? = some q := by
      rw [hassoc, ← hzs,
        List.getElem?_append_right (by omega : zs.length ≤ zs.length + 1)]
      simp
    have hpair : learn_backward_pair input ((zs ++ [p, q]) ++ ls2) j =
        (match layer_backward q p.output (some p.delta) with
          | some d2 => ((zs ++ [p, q]) ++ ls2).set j { p with delta := d2 }
          | none => (zs ++ [p, q]) ++ ls2) := by
      unfold learn_backward_pair
      rw [hgetp, hgetq]
    rw [hpair]
    have hrev2 : (zs ++ [p, q]).reverse = q :: p :: zs.reverse := by
      simp
    rw [hrev2]
    rcases hbw : layer_backward q p.output (some p.delta) with _ | d2
    · show learn_backward_from input ((zs ++ [p, q]) ++ ls2) j = _
      have hsplit : (zs ++ [p, q]) ++ ls2 = (zs ++ [p]) ++ (q :: ls2) := by
        simp
      have hlen1 : (zs ++ [p]).length = j + 1 := by
        simp only [List.length_append, List.length_cons, List.length_nil]
        omega
      have hspec : backwardSpec input (q :: p :: zs.reverse) =
          q :: backwardSpec input (p :: zs.reverse) := by
        rw [backwardSpec_cons_cons, hbw]
      rw [hsplit]
      refine (ih (zs ++ [p]) (q :: ls2) hlen1).trans ?_
      rw [hspec]
      have hrev3 : (zs ++ [p]).reverse = p :: zs.reverse := by
        simp
      rw [hrev3]
      simp
    · show learn_backward_from input
        (((zs ++ [p, q]) ++ ls2).set j { p with delta := d2 }) j = _
      have hset : ((zs ++ [p, q]) ++ ls2).set j { p with delta := d2 } =
          (zs ++ [{ p with delta := d2 }]) ++ (q :: ls2) := by
        rw [hassoc, ← hzs, show zs.length = zs.length + 0 from rfl,
          set_append_right]
        simp
      have hlen1 : (zs ++ [{ p with delta := d2 }]).length = j + 1 := by
        simp only [List.length_append, List.length_cons, List.length_nil]
        omega
      have hspec : backwardSpec input (q :: p :: zs.reverse) =
          q :: backwardSpec input ({ p with delta := d2 } :: zs.reverse) := by
        rw [backwardSpec_cons_cons, hbw]
      rw [hset]
      refine (ih (zs ++ [{ p with delta := d2 }]) (q :: ls2) hlen1).trans ?_
      rw [hspec]
      have hrev3 : (zs ++ [{ p with delta := d2 }]).reverse =
          { p with delta := d2 } :: zs.reverse := by
        simp
      rw [hrev3]
      simp

/-- C7: `neural_learn` performs exactly one backprop step: it zeroes every
layer's delta, sets the output layer's delta to `truth - output`, backward-
propagates once through the layers from the output layer to the input layer
(each layer handing the next-inner layer's output and delta to
`layer_backward`, the input layer receiving the raw input and a NULL delta),
and then applies exactly one `layer_update` to every layer — the phase
composition `neural_learn_spec` stated by the claim. -/
theorem C7_neural_learn (ls : List Layer) (truth input : List ℚ) :
    neural_learn ls truth input = neural_learn_spec ls truth input := by
  rcases ls with _ | ⟨a, t⟩
  · unfold neural_learn neural_learn_spec set_output_delta
    simp [backwardSpec]
  · unfold neural_learn neural_learn_spec
    have hlen : (set_output_delta truth ((a :: t).map layer_zero_delta)).length
        = t.length + 1 := by
      unfold set_output_delta
      rcases ((a :: t).map layer_zero_delta).getLast? with _ | p
      · simp
      · simp
    have h := learn_backward_eq input t.length
      (set_output_delta truth ((a :: t).map layer_zero_delta)) [] hlen
    rw [List.append_nil] at h
    show (learn_backward_from input
        (set_output_delta truth ((a :: t).map layer_zero_delta))
        ((a :: t).length - 1)).map layer_update = _
    have hlen2 : (a :: t).length - 1 = t.length := by simp
    rw [hlen2, h]
    simp

/-! ## Claim C3: the save/load round trip

`neural_save` writes the header and each layer's tagged record; `neural_load`
rebuilds the network layer by layer.  The configuration fields named by the
claim travel through the stream unchanged; the freshly calloc'd buffers of a
reloaded layer do not influence the forward pass because a well-formed layer's
forward pass (re)writes every output position it exposes. -/

/-- The maxpool configuration fields named by the round-trip claim. -/
def maxpoolCfg (l : Layer) : List ℤ :=
  [l.height, l.width, l.channels, l.pad, l.out_w, l.out_h, l.out_c,
   l.n_outputs, l.max_outputs, l.n_inputs, l.size, l.stride]

/-- The dropout configuration fields named by the round-trip claim. -/
def dropoutCfg (l : Layer) : List ℤ × ℚ × ℚ :=
  ([l.n_inputs, l.n_outputs, l.max_outputs], l.probability, l.scale)

/-- Two layers agree on the configuration fields of their (common) type. -/
def cfgMatches (a b : Layer) : Prop :=
  a.layer_type = b.layer_type ∧
  (a.layer_type = .maxpool → maxpoolCfg a = maxpoolCfg b) ∧
  (a.layer_type = .dropout → dropoutCfg a = dropoutCfg b)

/-- Structural well-formedness of a serialisable layer, as established by the
`init`, `copy` and `resize` functions of the two layer variants: the type is
serialisable, the size fields are inside the `malloc_layer_arrays` ranges,
the maxpool output geometry multiplies out, and the output buffer has its
declared length. -/
def layerWF (l : Layer) : Prop :=
  (l.layer_type = .maxpool ∧ 1 ≤ l.n_outputs ∧ l.n_outputs ≤ N_OUTPUTS_MAX ∧
    l.n_outputs = l.out_h * l.out_w * l.channels ∧
    0 ≤ l.out_h ∧ 0 ≤ l.out_w ∧ 0 ≤ l.channels ∧
    l.output.length = l.n_outputs.toNat) ∨
  (l.layer_type = .dropout ∧ 1 ≤ l.n_inputs ∧ l.n_inputs ≤ N_INPUTS_MAX ∧
    l.output.length = l.n_inputs.toNat)

/-- Well-formedness of a network being saved: the layer count is consistent
and every layer is serialisable. -/
def saveWF (net : Net) : Prop :=
  net.n_layers = net.layers.length ∧ ∀ l ∈ net.layers, layerWF l

/-- A fold whose step acts componentwise on a pair splits into two folds. -/
lemma foldl_pair_split {α β γ : Type} (g1 : β → α → β) (g2 : γ → α → γ) :
    ∀ (xs : List α) (bc : β × γ),
      xs.foldl (fun acc t => (g1 acc.1 t, g2 acc.2 t)) bc =
        (xs.foldl g1 bc.1, xs.foldl g2 bc.2)
  | [], _ => rfl
  | x :: xs, bc => by
    rw [List.foldl_cons, List.foldl_cons, List.foldl_cons]
    exact foldl_pair_split g1 g2 xs (g1 bc.1 x, g2 bc.2 x)

/-- The first `n` positions of two equal-length buffers agree. -/
def agreeBelow (n : ℕ) (b1 b2 : List ℚ) : Prop :=
  b1.length = b2.length ∧ ∀ s, s < n → b1.getD s 0 = b2.getD s 0

/-- Writing the same value at position `n` extends agreement by one. -/
lemma agreeBelow_set (n : ℕ) (b1 b2 : List ℚ) (v : ℚ)
    (h : agreeBelow n b1 b2) :
    agreeBelow (n + 1) (b1.set n v) (b2.set n v) := by
  have hlen := h.1
  refine ⟨by simp [hlen], fun s hs => ?_⟩
  rw [List.getD_eq_getElem?_getD, List.getD_eq_getElem?_getD]
  rcases Nat.lt_or_ge s n with hlt | hge
  · rw [List.getElem?_set_ne (by omega), List.getElem?_set_ne (by omega)]
    have h3 := h.2 s hlt
    rwa [List.getD_eq_getElem?_getD, List.getD_eq_getElem?_getD] at h3
  · have hs' : s = n := by omega
    subst hs'
    by_cases hl : s < b1.length
    · rw [List.getElem?_set_self hl, List.getElem?_set_self (by omega)]
    · rw [List.getElem?_eq_none (by simp; omega),
        List.getElem?_eq_none (by simp; omega)]

/-- Running a position-writing fold over `range m` in lockstep on two
buffers: when every step extends agreement by `L` positions, the whole fold
extends it by `L * m`. -/
lemma agree_chain (F G : List ℚ → ℕ → List ℚ) (B L : ℕ)
    (hstep : ∀ t b1 b2, agreeBelow (B + L * t) b1 b2 →
      agreeBelow (B + L * t + L) (F b1 t) (G b2 t)) :
    ∀ (m : ℕ) (b1 b2 : List ℚ), agreeBelow B b1 b2 →
      agreeBelow (B + L * m) ((List.range m).foldl F b1)
        ((List.range m).foldl G b2) := by
  intro m
  induction m with
  | zero => intro b1 b2 h; simpa using h
  | succ m ih =>
    intro b1 b2 h
    rw [List.range_succ, List.foldl_append, List.foldl_append]
    simp only [List.foldl_cons, List.foldl_nil]
    have h2 := hstep m _ _ (ih b1 b2 h)
    have hb : B + L * (m + 1) = B + L * m + L := by ring
    rw [hb]
    exact h2

/-- A fold whose steps preserve list length preserves list length. -/
lemma foldl_length_pres {α : Type} (F : List ℚ → α → List ℚ)
    (hF : ∀ b t, (F b t).length = b.length) :
    ∀ (xs : List α) (b : List ℚ), (xs.foldl F b).length = b.length
  | [], _ => rfl
  | x :: xs, b => by
    rw [List.foldl_cons, foldl_length_pres F hF xs (F b x), hF]

/-- Buffers that agree below their (shared) length are equal. -/
lemma agreeBelow_eq (n : ℕ) (b1 b2 : List ℚ) (h : agreeBelow n b1 b2)
    (hn : b1.length ≤ n) : b1 = b2 := by
  apply List.ext_getElem h.1
  intro i h1 h2
  have h3 := h.2 i (lt_of_lt_of_le h1 hn)
  rwa [List.getD_eq_getElem b1 0 h1, List.getD_eq_getElem b2 0 h2] at h3

/-- `toNat` distributes over products of nonnegative integers. -/
lemma int_toNat_mul (a b : ℤ) (ha : 0 ≤ a) (hb : 0 ≤ b) :
    (a * b).toNat = a.toNat * b.toNat := by
  have h1 : ((a * b).toNat : ℤ) = a * b := Int.toNat_of_nonneg (mul_nonneg ha hb)
  have h2 : ((a.toNat * b.toNat : ℕ) : ℤ) = a * b := by
    push_cast
    rw [Int.toNat_of_nonneg ha, Int.toNat_of_nonneg hb]
  exact_mod_cast h1.trans h2.symm

/-- The flat output position written by window `(k, i, j)` of the maxpool
forward loop. -/
def mpWritePos (l : Layer) (k i j : ℕ) : ℕ :=
  ((j : ℤ) + l.out_w * ((i : ℤ) + l.out_h * (k : ℤ))).toNat

/-- The index value stored by window `(k, i, j)`. -/
def mpIdxVal (l : Layer) (input : List ℚ) (k i j : ℕ) : ℤ :=
  max_pool l input (i : ℤ) (j : ℤ) (k : ℤ)

/-- The output value stored by window `(k, i, j)`. -/
def mpWriteVal (l : Layer) (input : List ℚ) (k i j : ℕ) : ℚ :=
  input.getD (max_pool l input (i : ℤ) (j : ℤ) (k : ℤ)).toNat 0

/-- The output component of the maxpool forward triple loop, on its own. -/
def mpOutFold (l : Layer) (input : List ℚ) (b : List ℚ) : List ℚ :=
  (List.range l.channels.toNat).foldl (fun (b : List ℚ) (k : ℕ) =>
    (List.range l.out_h.toNat).foldl (fun (b : List ℚ) (i : ℕ) =>
      (List.range l.out_w.toNat).foldl (fun (b : List ℚ) (j : ℕ) =>
        b.set (mpWritePos l k i j) (mpWriteVal l input k i j)) b) b) b

/-- The indexes component of the maxpool forward triple loop, on its own. -/
def mpIdxFold (l : Layer) (input : List ℚ) (b : List ℤ) : List ℤ :=
  (List.range l.channels.toNat).foldl (fun (b : List ℤ) (k : ℕ) =>
    (List.range l.out_h.toNat).foldl (fun (b : List ℤ) (i : ℕ) =>
      (List.range l.out_w.toNat).foldl (fun (b : List ℤ) (j : ℕ) =>
        b.set (mpWritePos l k i j) (mpIdxVal l input k i j)) b) b) b

/-- The fold over pairs in `neural_layer_maxpool_forward` splits: the output
buffer it produces is `mpOutFold` of the old output buffer. -/
lemma maxpool_forward_output_fold (l : Layer) (input : List ℚ) :
    (neural_layer_maxpool_forward l input).output = mpOutFold l input l.output := by
  have hinner : ∀ (k i : ℕ) (acc : List ℤ × List ℚ),
      (List.range l.out_w.toNat).foldl
          (fun (acc : List ℤ × List ℚ) (j : ℕ) =>
            maxpool_forward_cell l input (k : ℤ) (i : ℤ) (j : ℤ) acc) acc =
        ((List.range l.out_w.toNat).foldl
            (fun (b : List ℤ) (j : ℕ) =>
              b.set (mpWritePos l k i j) (mpIdxVal l input k i j)) acc.1,
         (List.range l.out_w.toNat).foldl
            (fun (b : List ℚ) (j : ℕ) =>
              b.set (mpWritePos l k i j) (mpWriteVal l input k i j)) acc.2) :=
    fun k i acc => foldl_pair_split
      (fun (b : List ℤ) (j : ℕ) =>
        b.set (mpWritePos l k i j) (mpIdxVal l input k i j))
      (fun (b : List ℚ) (j : ℕ) =>
        b.set (mpWritePos l k i j) (mpWriteVal l input k i j))
      (List.range l.out_w.toNat) acc
  have hmid : ∀ (k : ℕ) (acc : List ℤ × List ℚ),
      (List.range l.out_h.toNat).foldl
          (fun (acc : List ℤ × List ℚ) (i : ℕ) =>
            (List.range l.out_w.toNat).foldl
              (fun (acc : List ℤ × List ℚ) (j : ℕ) =>
                maxpool_forward_cell l input (k : ℤ) (i : ℤ) (j : ℤ) acc)
              acc) acc =
        ((List.range l.out_h.toNat).foldl
            (fun (b : List ℤ) (i : ℕ) => (List.range l.out_w.toNat).foldl
              (fun (b : List ℤ) (j : ℕ) =>
                b.set (mpWritePos l k i j) (mpIdxVal l input k i j)) b) acc.1,
         (List.range l.out_h.toNat).foldl
            (fun (b : List ℚ) (i : ℕ) => (List.range l.out_w.toNat).foldl
              (fun (b : List ℚ) (j : ℕ) =>
                b.set (mpWritePos l k i j) (mpWriteVal l input k i j)) b)
            acc.2) := by
    intro k acc
    have hf : (fun (acc : List ℤ × List ℚ) (i : ℕ) =>
          (List.range l.out_w.toNat).foldl
            (fun (acc : List ℤ × List ℚ) (j : ℕ) =>
              maxpool_forward_cell l input (k : ℤ) (i : ℤ) (j : ℤ) acc) acc) =
        (fun (acc : List ℤ × List ℚ) (i : ℕ) =>
          ((List.range l.out_w.toNat).foldl
              (fun (b : List ℤ) (j : ℕ) =>
                b.set (mpWritePos l k i j) (mpIdxVal l input k i j)) acc.1,
           (List.range l.out_w.toNat).foldl
              (fun (b : List ℚ) (j : ℕ) =>
                b.set (mpWritePos l k i j) (mpWriteVal l input k i j)) acc.2)) :=
      funext fun acc => funext fun i => hinner k i acc
    rw [hf]
    exact foldl_pair_split
      (fun (b : List ℤ) (i : ℕ) => (List.range l.out_w.toNat).foldl
        (fun (b : List ℤ) (j : ℕ) =>
          b.set (mpWritePos l k i j) (mpIdxVal l input k i j)) b)
      (fun (b : List ℚ) (i : ℕ) => (List.range l.out_w.toNat).foldl
        (fun (b : List ℚ) (j : ℕ) =>
          b.set (mpWritePos l k i j) (mpWriteVal l input k i j)) b)
      (List.range l.out_h.toNat) acc
  have houter :
      (List.range l.channels.toNat).foldl
          (fun (acc : List ℤ × List ℚ) (k : ℕ) =>
            (List.range l.out_h.toNat).foldl
              (fun (acc : List ℤ × List ℚ) (i : ℕ) =>
                (List.range l.out_w.toNat).foldl
                  (fun (acc : List ℤ × List ℚ) (j : ℕ) =>
                    maxpool_forward_cell l input (k : ℤ) (i : ℤ) (j : ℤ) acc)
                  acc)
              acc)
          (l.indexes, l.output) =
        (mpIdxFold l input l.indexes, mpOutFold l input l.output) := by
    have hf : (fun (acc : List ℤ × List ℚ) (k : ℕ) =>
          (List.range l.out_h.toNat).foldl
            (fun (acc : List ℤ × List ℚ) (i : ℕ) =>
              (List.range l.out_w.toNat).foldl
                (fun (acc : List ℤ × List ℚ) (j : ℕ) =>
                  maxpool_forward_cell l input (k : ℤ) (i : ℤ) (j : ℤ) acc)
                acc)
            acc) =
        (fun (acc : List ℤ × List ℚ) (k : ℕ) =>
          ((List.range l.out_h.toNat).foldl
              (fun (b : List ℤ) (i : ℕ) => (List.range l.out_w.toNat).foldl
                (fun (b : List ℤ) (j : ℕ) =>
                  b.set (mpWritePos l k i j) (mpIdxVal l input k i j)) b)
              acc.1,
           (List.range l.out_h.toNat).foldl
              (fun (b : List ℚ) (i : ℕ) => (List.range l.out_w.toNat).foldl
                (fun (b : List ℚ) (j : ℕ) =>
                  b.set (mpWritePos l k i j) (mpWriteVal l input k i j)) b)
              acc.2)) :=
      funext fun acc => funext fun k => hmid k acc
    rw [hf]
    exact foldl_pair_split
      (fun (b : List ℤ) (k : ℕ) => (List.range l.out_h.toNat).foldl
        (fun (b : List ℤ) (i : ℕ) => (List.range l.out_w.toNat).foldl
          (fun (b : List ℤ) (j : ℕ) =>
            b.set (mpWritePos l k i j) (mpIdxVal l input k i j)) b) b)
      (fun (b : List ℚ) (k : ℕ) => (List.range l.out_h.toNat).foldl
        (fun (b : List ℚ) (i : ℕ) => (List.range l.out_w.toNat).foldl
          (fun (b : List ℚ) (j : ℕ) =>
            b.set (mpWritePos l k i j) (mpWriteVal l input k i j)) b) b)
      (List.range l.channels.toNat) (l.indexes, l.output)
  show ((List.range l.channels.toNat).foldl
      (fun (acc : List ℤ × List ℚ) (k : ℕ) =>
        (List.range l.out_h.toNat).foldl
          (fun (acc : List ℤ × List ℚ) (i : ℕ) =>
            (List.range l.out_w.toNat).foldl
              (fun (acc : List ℤ × List ℚ) (j : ℕ) =>
                maxpool_forward_cell l input (k : ℤ) (i : ℤ) (j : ℤ) acc)
              acc)
          acc)
      (l.indexes, l.output)).2 = mpOutFold l input l.output
  rw [houter]

/-- `max_pool` reads only the window-geometry fields of the layer. -/
lemma max_pool_congr (l1 l2 : Layer) (input : List ℚ)
    (hh : l1.height = l2.height) (hw : l1.width = l2.width)
    (hp : l1.pad = l2.pad) (hsz : l1.size = l2.size)
    (hst : l1.stride = l2.stride) :
    ∀ (i j k : ℤ), max_pool l2 input i j k = max_pool l1 input i j k := by
  intro i j k
  simp only [max_pool, max_pool_cell, ← hh, ← hw, ← hp, ← hsz, ← hst]

/-- Lockstep agreement for the triple write loop: the positions written by
windows `(k, i, j)`, `k < C`, `i < OH`, `j < OW`, are exactly
`0, 1, …, OW * OH * C - 1` in iteration order, so after the loop two
equal-length buffers agree below `OW * OH * C` regardless of their initial
contents. -/
lemma triple_write_agree (OW OH C : ℕ) (pos : ℕ → ℕ → ℕ → ℕ)
    (v : ℕ → ℕ → ℕ → ℚ)
    (hpos : ∀ k i j, pos k i j = OW * (OH * k) + OW * i + j)
    (b1 b2 : List ℚ) (hl : b1.length = b2.length) :
    agreeBelow (OW * OH * C)
      ((List.range C).foldl (fun b k =>
        (List.range OH).foldl (fun b i =>
          (List.range OW).foldl (fun b j => b.set (pos k i j) (v k i j)) b) b)
        b1)
      ((List.range C).foldl (fun b k =>
        (List.range OH).foldl (fun b i =>
          (List.range OW).foldl (fun b j => b.set (pos k i j) (v k i j)) b) b)
        b2) := by
  have hinner : ∀ (k i : ℕ) (c1 c2 : List ℚ),
      agreeBelow (OW * (OH * k) + OW * i) c1 c2 →
      agreeBelow (OW * (OH * k) + OW * i + OW)
        ((List.range OW).foldl (fun b j => b.set (pos k i j) (v k i j)) c1)
        ((List.range OW).foldl (fun b j => b.set (pos k i j) (v k i j)) c2) := by
    intro k i c1 c2 hc
    have hstep : ∀ (j : ℕ) (d1 d2 : List ℚ),
        agreeBelow (OW * (OH * k) + OW * i + 1 * j) d1 d2 →
        agreeBelow (OW * (OH * k) + OW * i + 1 * j + 1)
          (d1.set (pos k i j) (v k i j)) (d2.set (pos k i j) (v k i j)) := by
      intro j d1 d2 hd
      have hp : pos k i j = OW * (OH * k) + OW * i + 1 * j := by
        rw [hpos]; ring
      rw [hp]
      exact agreeBelow_set _ _ _ _ hd
    have h1 := agree_chain _ _ (OW * (OH * k) + OW * i) 1 hstep OW c1 c2 hc
    have heq : OW * (OH * k) + OW * i + 1 * OW =
        OW * (OH * k) + OW * i + OW := by ring
    rwa [heq] at h1
  have hmid : ∀ (k : ℕ) (c1 c2 : List ℚ),
      agreeBelow (0 + OW * OH * k) c1 c2 →
      agreeBelow (0 + OW * OH * k + OW * OH)
        ((List.range OH).foldl (fun b i =>
          (List.range OW).foldl (fun b j => b.set (pos k i j) (v k i j)) b) c1)
        ((List.range OH).foldl (fun b i =>
          (List.range OW).foldl (fun b j => b.set (pos k i j) (v k i j)) b)
          c2) := by
    intro k c1 c2 hc
    have hc' : agreeBelow (OW * (OH * k)) c1 c2 := by
      have heq : OW * (OH * k) = 0 + OW * OH * k := by ring
      rwa [heq]
    have h1 := agree_chain _ _ (OW * (OH * k)) OW (hinner k) OH c1 c2 hc'
    have heq2 : OW * (OH * k) + OW * OH = 0 + OW * OH * k + OW * OH := by ring
    rwa [heq2] at h1
  have h0 : agreeBelow 0 b1 b2 := ⟨hl, fun s hs => absurd hs (Nat.not_lt_zero s)⟩
  have h1 := agree_chain _ _ 0 (OW * OH) hmid C b1 b2 h0
  have heq3 : 0 + OW * OH * C = OW * OH * C := by ring
  rwa [heq3] at h1

/-- The output written by a maxpool forward pass depends only on the
configuration fields and the input: two configuration-equal well-formed
maxpool layers produce identical output buffers — in particular a reloaded
layer whose freshly calloc'd buffer replaced the original one. -/
lemma maxpool_forward_output_congr (l1 l2 : Layer) (input : List ℚ)
    (hh : l1.height = l2.height) (hw : l1.width = l2.width)
    (hc : l1.channels = l2.channels) (hp : l1.pad = l2.pad)
    (how : l1.out_w = l2.out_w) (hoh : l1.out_h = l2.out_h)
    (hno : l1.n_outputs = l2.n_outputs) (hsz : l1.size = l2.size)
    (hst : l1.stride = l2.stride)
    (hlen1 : l1.output.length = l1.n_outputs.toNat)
    (hlen2 : l2.output.length = l2.n_outputs.toNat)
    (hgeom : l1.n_outputs = l1.out_h * l1.out_w * l1.channels)
    (h0h : 0 ≤ l1.out_h) (h0w : 0 ≤ l1.out_w) (h0c : 0 ≤ l1.channels) :
    (neural_layer_maxpool_forward l1 input).output =
      (neural_layer_maxpool_forward l2 input).output := by
  rw [maxpool_forward_output_fold, maxpool_forward_output_fold]
  have hfold : ∀ b : List ℚ, mpOutFold l2 input b = mpOutFold l1 input b := by
    intro b
    simp only [mpOutFold, mpWritePos, mpWriteVal, ← hc, ← how, ← hoh,
      max_pool_congr l1 l2 input hh hw hp hsz hst]
  rw [hfold]
  have hlen12 : l1.output.length = l2.output.length := by
    rw [hlen1, hlen2, hno]
  have hpos : ∀ (k i j : ℕ), mpWritePos l1 k i j =
      l1.out_w.toNat * (l1.out_h.toNat * k) + l1.out_w.toNat * i + j := by
    intro k i j
    unfold mpWritePos
    have hcast : (j : ℤ) + l1.out_w * ((i : ℤ) + l1.out_h * (k : ℤ)) =
        ((l1.out_w.toNat * (l1.out_h.toNat * k) + l1.out_w.toNat * i + j :
          ℕ) : ℤ) := by
      push_cast
      rw [Int.toNat_of_nonneg h0w, Int.toNat_of_nonneg h0h]
      ring
    rw [hcast, Int.toNat_natCast]
  have hagree := triple_write_agree l1.out_w.toNat l1.out_h.toNat
    l1.channels.toNat (mpWritePos l1) (mpWriteVal l1 input) hpos
    l1.output l2.output hlen12
  have hlenpres : (mpOutFold l1 input l1.output).length = l1.output.length := by
    unfold mpOutFold
    refine foldl_length_pres _ (fun b k => ?_) _ _
    refine foldl_length_pres _ (fun b i => ?_) _ _
    refine foldl_length_pres _ (fun b j => ?_) _ _
    exact List.length_set b _ _
  have hbound : (mpOutFold l1 input l1.output).length ≤
      l1.out_w.toNat * l1.out_h.toNat * l1.channels.toNat := by
    rw [hlenpres, hlen1]
    have h1 : l1.n_outputs.toNat =
        l1.out_h.toNat * l1.out_w.toNat * l1.channels.toNat := by
      rw [hgeom, int_toNat_mul _ _ (mul_nonneg h0h h0w) h0c,
        int_toNat_mul _ _ h0h h0w]
    rw [h1]
    exact le_of_eq (by ring)
  exact agreeBelow_eq _ _ _ hagree hbound

/-- The output of a dropout forward pass depends only on `n_inputs`,
`probability`, `scale`, the input and the RNG stream, provided the output
buffer has its declared length. -/
lemma dropout_forward_output_congr (l1 l2 : Layer) (explore : Bool)
    (rng input : List ℚ)
    (hnin : l1.n_inputs = l2.n_inputs) (hprob : l1.probability = l2.probability)
    (hscale : l1.scale = l2.scale)
    (hlen1 : l1.output.length = l1.n_inputs.toNat)
    (hlen2 : l2.output.length = l2.n_inputs.toNat) :
    (neural_layer_dropout_forward l1 explore rng input).output =
      (neural_layer_dropout_forward l2 explore rng input).output := by
  have hd1 : l1.output.drop l2.n_inputs.toNat = [] :=
    List.drop_eq_nil_of_le (le_of_eq (by rw [hlen1, hnin]))
  have hd2 : l2.output.drop l2.n_inputs.toNat = [] :=
    List.drop_eq_nil_of_le (le_of_eq hlen2)
  cases explore with
  | false =>
    show input.take l1.n_inputs.toNat ++ l1.output.drop l1.n_inputs.toNat =
      input.take l2.n_inputs.toNat ++ l2.output.drop l2.n_inputs.toNat
    rw [hnin, hd1, hd2]
  | true =>
    show ((List.range l1.n_inputs.toNat).map (fun i =>
        if rng.getD i 0 < l1.probability then 0 else input.getD i 0 * l1.scale))
        ++ l1.output.drop l1.n_inputs.toNat =
      ((List.range l2.n_inputs.toNat).map (fun i =>
        if rng.getD i 0 < l2.probability then 0 else input.getD i 0 * l2.scale))
        ++ l2.output.drop l2.n_inputs.toNat
    rw [hnin, hprob, hscale, hd1, hd2]

/-- Configuration-equal well-formed layers produce the same output buffer and
consume the RNG stream identically under `layer_forward`. -/
lemma layer_forward_congr (l1 l2 : Layer) (input : List ℚ) (explore : Bool)
    (rng : List ℚ) (hcfg : cfgMatches l1 l2) (hwf1 : layerWF l1)
    (hwf2 : layerWF l2) :
    (layer_forward l1 input explore rng).1.output =
      (layer_forward l2 input explore rng).1.output ∧
    (layer_forward l1 input explore rng).2 =
      (layer_forward l2 input explore rng).2 := by
  obtain ⟨ht, hmx, hdr⟩ := hcfg
  rcases hwf1 with ⟨ht1, hn1, hn2, hgeom, h0h, h0w, h0c, hlen1⟩ |
    ⟨ht1, hi1, hi2, hlen1⟩
  · -- maxpool
    have ht2 : l2.layer_type = LType.maxpool := by rw [← ht, ht1]
    rcases hwf2 with ⟨_, _, _, _, _, _, _, hlen2⟩ | ⟨ht2', _, _, _⟩
    · have hc := hmx ht1
      simp only [maxpoolCfg, List.cons.injEq, and_true] at hc
      obtain ⟨hh, hw, hcc, hp, how, hoh, hoc, hno, hmo, hni, hsz, hst⟩ := hc
      constructor
      · simp only [layer_forward, ht1, ht2]
        exact maxpool_forward_output_congr l1 l2 input hh hw hcc hp how hoh
          hno hsz hst hlen1 hlen2 hgeom h0h h0w h0c
      · simp only [layer_forward, ht1, ht2]
    · rw [ht2] at ht2'
      exact absurd ht2' (by decide)
  · -- dropout
    have ht2 : l2.layer_type = LType.dropout := by rw [← ht, ht1]
    rcases hwf2 with ⟨ht2', _, _, _⟩ | ⟨_, _, _, hlen2⟩
    · rw [ht2] at ht2'
      exact absurd ht2' (by decide)
    · have hc := hdr ht1
      simp only [dropoutCfg, Prod.mk.injEq, List.cons.injEq, and_true] at hc
      obtain ⟨⟨hni, hno, hmo⟩, hprob, hscale⟩ := hc
      constructor
      · simp only [layer_forward, ht1, ht2]
        exact dropout_forward_output_congr l1 l2 explore rng input hni hprob
          hscale hlen1 hlen2
      · simp only [layer_forward, ht1, ht2, hni]

/-- The pairing of layers under which the forward pass is compared: equal
configuration, both sides well-formed. -/
def layerSim (a b : Layer) : Prop := cfgMatches a b ∧ layerWF a ∧ layerWF b

/-- `neural_propagate` produces the same output signal on two networks whose
layer lists are pointwise configuration-equal and well-formed. -/
lemma neural_propagate_output_congr (net1 net2 : Net) (explore : Bool)
    (h : List.Forall₂ layerSim net1.layers net2.layers)
    (input rng : List ℚ) :
    (neural_propagate net1 input explore rng).2.1 =
      (neural_propagate net2 input explore rng).2.1 := by
  have hgo : ∀ (ls1 : List Layer), ∀ (ls2 : List Layer),
      List.Forall₂ layerSim ls1 ls2 →
      ∀ (acc1 acc2 : List Layer) (sig rng : List ℚ),
        ((ls1.foldl (fun (acc : List Layer × List ℚ × List ℚ) l =>
            let (l2, rng2) := layer_forward l acc.2.1 explore acc.2.2
            (acc.1 ++ [l2], layer_output l2, rng2)) (acc1, sig, rng)).2 :
          List ℚ × List ℚ) =
        (ls2.foldl (fun (acc : List Layer × List ℚ × List ℚ) l =>
            let (l2, rng2) := layer_forward l acc.2.1 explore acc.2.2
            (acc.1 ++ [l2], layer_output l2, rng2)) (acc2, sig, rng)).2 := by
    intro ls1
    induction ls1 with
    | nil =>
      intro ls2 hf acc1 acc2 sig rng
      cases hf
      rfl
    | cons a t1 ih =>
      intro ls2 hf
      cases hf with
      | cons hab htail =>
        rename_i b t2
        intro acc1 acc2 sig rng
        have hfw := layer_forward_congr a b sig explore rng hab.1 hab.2.1
          hab.2.2
        have hout : layer_output (layer_forward a sig explore rng).1 =
            layer_output (layer_forward b sig explore rng).1 := hfw.1
        have hrng : (layer_forward a sig explore rng).2 =
            (layer_forward b sig explore rng).2 := hfw.2
        rw [List.foldl_cons, List.foldl_cons]
        show ((t1.foldl _ (acc1 ++ [(layer_forward a sig explore rng).1],
            layer_output (layer_forward a sig explore rng).1,
            (layer_forward a sig explore rng).2)).2 : List ℚ × List ℚ) =
          (t2.foldl _ (acc2 ++ [(layer_forward b sig explore rng).1],
            layer_output (layer_forward b sig explore rng).1,
            (layer_forward b sig explore rng).2)).2
        rw [← hout, ← hrng]
        exact ih t2 htail (acc1 ++ [(layer_forward a sig explore rng).1])
          (acc2 ++ [(layer_forward b sig explore rng).1])
          (layer_output (layer_forward a sig explore rng).1)
          (layer_forward a sig explore rng).2
  have h2 := hgo net1.layers net2.layers h [] [] input rng
  exact congrArg Prod.fst h2

/-- `Except.ok` feeds its value straight into the monadic continuation. -/
lemma except_bind_ok {ε α β : Type} (a : α) (f : α → Except ε β) :
    (Except.ok a : Except ε α) >>= f = f a := rfl

/-- The layer rebuilt by `layer_load` from `layer_save`'s stream: the numeric
configuration is carried over; the buffers are freshly calloc'd zero-fill of
the declared length. -/
def loadedLayer (l : Layer) : Layer :=
  match l.layer_type with
  | .maxpool =>
    { layer_type := .maxpool, height := l.height, width := l.width,
      channels := l.channels, pad := l.pad, out_w := l.out_w,
      out_h := l.out_h, out_c := l.out_c, n_outputs := l.n_outputs,
      max_outputs := l.max_outputs, n_inputs := l.n_inputs, size := l.size,
      stride := l.stride,
      indexes := List.replicate l.n_outputs.toNat 0,
      output := List.replicate l.n_outputs.toNat 0,
      delta := List.replicate l.n_outputs.toNat 0 }
  | .dropout =>
    { layer_type := .dropout, n_inputs := l.n_inputs, n_outputs := l.n_outputs,
      max_outputs := l.max_outputs, probability := l.probability,
      scale := l.scale,
      output := List.replicate l.n_inputs.toNat 0,
      delta := List.replicate l.n_inputs.toNat 0,
      state := List.replicate l.n_inputs.toNat 0 }
  | .connected => { layer_type := .connected }

/-- `layer_set_vptr` recovers the layer type from its own tag. -/
lemma layer_set_vptr_code (t : LType) : layer_set_vptr (ltypeCode t) = .ok t := by
  cases t <;> rfl

/-- `layer_load` consumes exactly `layer_save`'s words and rebuilds
`loadedLayer l` (the size range checks of `malloc_layer_arrays` pass by
well-formedness). -/
lemma layer_load_save (l : Layer) (rest : List Word) (hwf : layerWF l) :
    layer_load { layer_type := l.layer_type } (layer_save l ++ rest) =
      .ok (loadedLayer l, rest) := by
  rcases hwf with ⟨ht, h1, h2, _⟩ | ⟨ht, h1, h2, _⟩
  · simp only [layer_load, layer_save, loadedLayer, ht]
    have hc : ¬(l.n_outputs < 1 ∨ l.n_outputs > N_OUTPUTS_MAX) := by
      push_neg
      exact ⟨h1, h2⟩
    show (if l.n_outputs < 1 ∨ l.n_outputs > N_OUTPUTS_MAX then
        (Except.error "neural_layer_maxpool: malloc() invalid size" :
          Except String (Layer × List Word))
      else .ok ({ layer_type := .maxpool, height := l.height,
                  width := l.width, channels := l.channels, pad := l.pad,
                  out_w := l.out_w, out_h := l.out_h, out_c := l.out_c,
                  n_outputs := l.n_outputs, max_outputs := l.max_outputs,
                  n_inputs := l.n_inputs, size := l.size, stride := l.stride,
                  indexes := List.replicate l.n_outputs.toNat 0,
                  output := List.replicate l.n_outputs.toNat 0,
                  delta := List.replicate l.n_outputs.toNat 0 }, rest)) =
      .ok ({ layer_type := .maxpool, height := l.height,
             width := l.width, channels := l.channels, pad := l.pad,
             out_w := l.out_w, out_h := l.out_h, out_c := l.out_c,
             n_outputs := l.n_outputs, max_outputs := l.max_outputs,
             n_inputs := l.n_inputs, size := l.size, stride := l.stride,
             indexes := List.replicate l.n_outputs.toNat 0,
             output := List.replicate l.n_outputs.toNat 0,
             delta := List.replicate l.n_outputs.toNat 0 }, rest)
    exact if_neg hc
  · simp only [layer_load, layer_save, loadedLayer, ht]
    have hc : ¬(l.n_inputs < 1 ∨ l.n_inputs > N_INPUTS_MAX) := by
      push_neg
      exact ⟨h1, h2⟩
    show (if l.n_inputs < 1 ∨ l.n_inputs > N_INPUTS_MAX then
        (Except.error "neural_layer_dropout: malloc() invalid size" :
          Except String (Layer × List Word))
      else .ok ({ layer_type := .dropout, n_inputs := l.n_inputs,
                  n_outputs := l.n_outputs, max_outputs := l.max_outputs,
                  probability := l.probability, scale := l.scale,
                  output := List.replicate l.n_inputs.toNat 0,
                  delta := List.replicate l.n_inputs.toNat 0,
                  state := List.replicate l.n_inputs.toNat 0 }, rest)) =
      .ok ({ layer_type := .dropout, n_inputs := l.n_inputs,
             n_outputs := l.n_outputs, max_outputs := l.max_outputs,
             probability := l.probability, scale := l.scale,
             output := List.replicate l.n_inputs.toNat 0,
             delta := List.replicate l.n_inputs.toNat 0,
             state := List.replicate l.n_inputs.toNat 0 }, rest)
    exact if_neg hc

/-- The reloaded layer matches the original's claimed configuration. -/
lemma loadedLayer_cfg (l : Layer) (hwf : layerWF l) :
    cfgMatches (loadedLayer l) l := by
  rcases hwf with ⟨ht, _⟩ | ⟨ht, _⟩ <;>
    simp [cfgMatches, loadedLayer, ht, maxpoolCfg, dropoutCfg]

/-- The reloaded layer is itself well-formed. -/
lemma loadedLayer_wf (l : Layer) (hwf : layerWF l) : layerWF (loadedLayer l) := by
  rcases hwf with ⟨ht, h1, h2, hg, h3, h4, h5, _⟩ | ⟨ht, h1, h2, _⟩
  · refine Or.inl ?_
    have hld : loadedLayer l =
        { layer_type := .maxpool, height := l.height, width := l.width,
          channels := l.channels, pad := l.pad, out_w := l.out_w,
          out_h := l.out_h, out_c := l.out_c, n_outputs := l.n_outputs,
          max_outputs := l.max_outputs, n_inputs := l.n_inputs,
          size := l.size, stride := l.stride,
          indexes := List.replicate l.n_outputs.toNat 0,
          output := List.replicate l.n_outputs.toNat 0,
          delta := List.replicate l.n_outputs.toNat 0 } := by
      simp [loadedLayer, ht]
    rw [hld]
    exact ⟨rfl, h1, h2, hg, h3, h4, h5, by simp⟩
  · refine Or.inr ?_
    have hld : loadedLayer l =
        { layer_type := .dropout, n_inputs := l.n_inputs,
          n_outputs := l.n_outputs, max_outputs := l.max_outputs,
          probability := l.probability, scale := l.scale,
          output := List.replicate l.n_inputs.toNat 0,
          delta := List.replicate l.n_inputs.toNat 0,
          state := List.replicate l.n_inputs.toNat 0 } := by
      simp [loadedLayer, ht]
    rw [hld]
    exact ⟨rfl, h1, h2, by simp⟩

/-- Inserting at position `length` (the walk runs off the head side) appends
the layer, whether or not the list is empty. -/
lemma neural_layer_insert_at_end (net : Net) (l : Layer) (p : ℤ)
    (hp : p.toNat = net.layers.length) :
    ∃ net2 : Net, neural_layer_insert net l p = .ok net2 ∧
      net2.layers = net.layers ++ [l] ∧ net2.n_layers = net.n_layers + 1 := by
  cases hls : net.layers with
  | nil =>
    have h1 : neural_layer_insert net l p =
        .ok { layers := [l], n_layers := net.n_layers + 1,
              n_inputs := l.n_inputs, n_outputs := l.n_outputs,
              outputRef := some l.outputId } := by
      unfold neural_layer_insert
      rw [hls]
    exact ⟨_, h1, by simp, rfl⟩
  | cons a t =>
    rw [hls] at hp
    have h1 : neural_layer_insert net l p =
        .ok { net with
              layers := net.layers ++ [l], n_layers := net.n_layers + 1,
              n_outputs := l.n_outputs, outputRef := some l.outputId } := by
      unfold neural_layer_insert
      rw [hls]
      rw [if_pos (by simp [hp])]
    exact ⟨_, h1, by rw [hls], rfl⟩

/-- One `neural_load` loop iteration at the current end of the list consumes
one tagged layer record and appends the reloaded layer. -/
lemma neural_load_step_ok (acc : Net) (l : Layer) (rest : List Word) (i : ℕ)
    (hwf : layerWF l) (hi : acc.layers.length = i) :
    ∃ net2 : Net,
      neural_load_step (acc, layer_save_tagged l ++ rest) i = .ok (net2, rest) ∧
      net2.layers = acc.layers ++ [loadedLayer l] ∧
      net2.n_layers = acc.n_layers + 1 := by
  obtain ⟨net2, hins, hlay, hn⟩ := neural_layer_insert_at_end acc
    (loadedLayer l) (i : ℤ) (by simp [← hi])
  refine ⟨net2, ?_, hlay, hn⟩
  simp only [neural_load_step, layer_save_tagged, List.cons_append, readInt,
    except_bind_ok, layer_set_vptr_code, layer_load_save l rest hwf, hins]
  rfl

/-- The `neural_load` loop over a saved layer list rebuilds the reloaded
layers in order, leaving exactly the trailing words unread. -/
lemma neural_load_go (ls : List Layer) :
    ∀ (acc : Net) (rest : List Word), (∀ l ∈ ls, layerWF l) →
    ∃ net2 : Net,
      (List.range' acc.layers.length ls.length).foldlM neural_load_step
          (acc, (ls.map layer_save_tagged).flatten ++ rest) = .ok (net2, rest) ∧
      net2.layers = acc.layers ++ ls.map loadedLayer ∧
      net2.n_layers = acc.n_layers + (ls.length : ℤ) := by
  induction ls with
  | nil =>
    intro acc rest _
    exact ⟨acc, rfl, by simp, by simp⟩
  | cons l0 t ih =>
    intro acc rest hwf
    obtain ⟨net1, hstep, hlay1, hn1⟩ := neural_load_step_ok acc l0
      ((t.map layer_save_tagged).flatten ++ rest) acc.layers.length
      (hwf l0 (List.mem_cons_self l0 t)) rfl
    obtain ⟨net2, hfold, hlay2, hn2⟩ := ih net1 rest
      (fun l hl => hwf l (List.mem_cons_of_mem l0 hl))
    have hlen1 : net1.layers.length = acc.layers.length + 1 := by
      rw [hlay1]
      simp
    refine ⟨net2, ?_, ?_, ?_⟩
    · have hr : List.range' acc.layers.length (l0 :: t).length =
          acc.layers.length :: List.range' (acc.layers.length + 1) t.length :=
        rfl
      rw [hr, List.foldlM_cons]
      have hs : ((l0 :: t).map layer_save_tagged).flatten ++ rest =
          layer_save_tagged l0 ++
            ((t.map layer_save_tagged).flatten ++ rest) := by
        simp
      rw [hs, hstep, except_bind_ok]
      rw [← hlen1]
      exact hfold
    · rw [hlay2, hlay1]
      simp
    · rw [hn2, hn1]
      simp only [List.length_cons]
      push_cast
      ring

/-- Pointwise configuration match between the reloaded and original layers. -/
lemma forall₂_loaded (ls : List Layer) (h : ∀ l ∈ ls, layerWF l) :
    List.Forall₂ cfgMatches (ls.map loadedLayer) ls := by
  induction ls with
  | nil => exact List.Forall₂.nil
  | cons a t ih =>
    exact List.Forall₂.cons (loadedLayer_cfg a (h a (List.mem_cons_self a t)))
      (ih fun l hl => h l (List.mem_cons_of_mem a hl))

/-- Pointwise forward-simulation pairing between the reloaded and original
layers. -/
lemma forall₂_sim (ls : List Layer) (h : ∀ l ∈ ls, layerWF l) :
    List.Forall₂ layerSim (ls.map loadedLayer) ls := by
  induction ls with
  | nil => exact List.Forall₂.nil
  | cons a t ih =>
    exact List.Forall₂.cons
      ⟨loadedLayer_cfg a (h a (List.mem_cons_self a t)),
       loadedLayer_wf a (h a (List.mem_cons_self a t)),
       h a (List.mem_cons_self a t)⟩
      (ih fun l hl => h l (List.mem_cons_of_mem a hl))

/-- C3: for every well-formed network of maxpool and/or dropout layers,
`neural_load` applied to `neural_save`'s words succeeds, consumes the whole
stream, and rebuilds a network with the same `n_layers`, the same layer types
in the same order with the same per-type configuration fields (for maxpool
the twelve geometry ints, for dropout `n_inputs`, `n_outputs`, `max_outputs`,
`probability`, `scale`), and the reloaded network produces an identical
forward output signal for every input, explore flag and RNG stream. -/
theorem C3_neural_save_load (net : Net) (hwf : saveWF net) :
    ∃ net2 : Net,
      neural_load (neural_save net) = .ok (net2, []) ∧
      net2.n_layers = net.n_layers ∧
      net2.layers.length = net.layers.length ∧
      List.Forall₂ cfgMatches net2.layers net.layers ∧
      ∀ (input : List ℚ) (explore : Bool) (rng : List ℚ),
        (neural_propagate net2 input explore rng).2.1 =
          (neural_propagate net input explore rng).2.1 := by
  obtain ⟨hcount, hlwf⟩ := hwf
  obtain ⟨net2, hfold, hlay, hn⟩ := neural_load_go net.layers neural_init [] hlwf
  have hlay' : net2.layers = net.layers.map loadedLayer := by
    rw [hlay]
    simp [neural_init]
  refine ⟨net2, ?_, ?_, ?_, ?_, ?_⟩
  · have hload : neural_load (neural_save net) =
        (List.range net.n_layers.toNat).foldlM neural_load_step
          (neural_init, (net.layers.map layer_save_tagged).flatten) := rfl
    have hr : net.n_layers.toNat = net.layers.length := by
      rw [hcount]
      simp
    have hstream : (net.layers.map layer_save_tagged).flatten =
        (net.layers.map layer_save_tagged).flatten ++ [] := by simp
    rw [hload, hr, List.range_eq_range', hstream]
    exact hfold
  · rw [hn, hcount]
    simp [neural_init]
  · rw [hlay']
    simp
  · rw [hlay']
    exact forall₂_loaded net.layers hlwf
  · intro input explore rng
    refine neural_propagate_output_congr net2 net explore ?_ input rng
    rw [hlay']
    exact forall₂_sim net.layers hlwf

/-- A concrete well-formed single-dropout network for exercising the
round-trip theorem. -/
def c3DropLayer : Layer :=
  { layer_type := .dropout, n_inputs := 2, n_outputs := 2, max_outputs := 2,
    probability := 0, scale := 1, output := [0, 0], delta := [0, 0],
    state := [0, 0] }

/-- The single-layer network holding `c3DropLayer`. -/
def c3Net : Net :=
  { layers := [c3DropLayer], n_layers := 1, n_inputs := 2, n_outputs := 2,
    outputRef := some 0 }

/-- `c3Net` is well-formed for saving. -/
lemma c3Net_wf : saveWF c3Net := by
  constructor
  · rfl
  · intro l hl
    have hl' : l = c3DropLayer := by simpa [c3Net] using hl
    subst hl'
    exact Or.inr ⟨rfl, by decide, by decide, by decide⟩

theorem C3_neural_save_load_witness :
    saveWF c3Net ∧
    ∃ net2 : Net,
      neural_load (neural_save c3Net) = .ok (net2, []) ∧
      net2.n_layers = c3Net.n_layers ∧
      net2.layers.length = c3Net.layers.length ∧
      List.Forall₂ cfgMatches net2.layers c3Net.layers ∧
      ∀ (input : List ℚ) (explore : Bool) (rng : List ℚ),
        (neural_propagate net2 input explore rng).2.1 =
          (neural_propagate c3Net input explore rng).2.1 :=
  ⟨c3Net_wf, C3_neural_save_load c3Net c3Net_wf⟩

/-! ## Claim C6: neural_copy produces independent storage

`malloc`/`calloc` are modelled by an allocation counter: each call hands out
the next free allocation identifier.  Buffer contents are values in the
model, so the aliasing content of the claim lives in the identifiers: a write
through one identifier (`Function.update` on a heap view) cannot change what
a distinct identifier holds. -/

/-- The allocation identifiers of the buffers a layer's variant allocates,
in `malloc_layer_arrays` order. -/
def allocIds (l : Layer) : List ℕ :=
  match l.layer_type with
  | .maxpool => [l.indexesId, l.outputId, l.deltaId]
  | .dropout => [l.outputId, l.deltaId, l.stateId]
  | .connected => []

/-- All buffer identifiers reachable from a layer list. -/
def allIds (ls : List Layer) : List ℕ := (ls.map allocIds).flatten

/-- All buffer identifiers reachable from a network. -/
def netAllocIds (net : Net) : List ℕ := allIds net.layers

/-- Model of `neural_layer_maxpool_copy` (neural_layer_maxpool.c, lines
79-105): aborts on a wrong source type, copies the thirteen configuration
fields, and calloc's fresh `indexes`, `output` and `delta` buffers (with the
`malloc_layer_arrays` range check). -/
def neural_layer_maxpool_copy (src : Layer) (cntr : ℕ) :
    Except String (Layer × ℕ) :=
  if src.layer_type ≠ LType.maxpool then
    .error "neural_layer_maxpool_copy(): incorrect source layer type"
  else if src.n_outputs < 1 ∨ src.n_outputs > N_OUTPUTS_MAX then
    .error "neural_layer_maxpool: malloc() invalid size"
  else
    .ok ({ layer_type := src.layer_type, height := src.height,
           width := src.width, channels := src.channels, pad := src.pad,
           out_w := src.out_w, out_h := src.out_h, out_c := src.out_c,
           n_outputs := src.n_outputs, max_outputs := src.max_outputs,
           n_inputs := src.n_inputs, size := src.size, stride := src.stride,
           indexes := List.replicate src.n_outputs.toNat 0,
           output := List.replicate src.n_outputs.toNat 0,
           delta := List.replicate src.n_outputs.toNat 0,
           indexesId := cntr, outputId := cntr + 1, deltaId := cntr + 2 },
         cntr + 3)

/-- Model of `neural_layer_dropout_copy` (neural_layer_dropout.c, lines
100-119): aborts on a wrong source type, copies `n_inputs`, `max_outputs`,
`probability` and `scale`, sets `n_outputs` from the source's `n_inputs`
(line 113), and calloc's fresh `output`, `delta` and `state` buffers. -/
def neural_layer_dropout_copy (src : Layer) (cntr : ℕ) :
    Except String (Layer × ℕ) :=
  if src.layer_type ≠ LType.dropout then
    .error "neural_layer_dropout_copy(): incorrect source layer type"
  else if src.n_inputs < 1 ∨ src.n_inputs > N_INPUTS_MAX then
    .error "neural_layer_dropout: malloc() invalid size"
  else
    .ok ({ layer_type := src.layer_type, n_inputs := src.n_inputs,
           n_outputs := src.n_inputs, max_outputs := src.max_outputs,
           probability := src.probability, scale := src.scale,
           output := List.replicate src.n_inputs.toNat 0,
           delta := List.replicate src.n_inputs.toNat 0,
           state := List.replicate src.n_inputs.toNat 0,
           outputId := cntr, deltaId := cntr + 1, stateId := cntr + 2 },
         cntr + 3)

/-- `layer_copy` dispatch.  The width-mutable variants' copy functions are
not among the given sources and are never reached by the claim's networks;
their arm is a failure placeholder. -/
def layer_copy (src : Layer) (cntr : ℕ) : Except String (Layer × ℕ) :=
  match src.layer_type with
  | .maxpool => neural_layer_maxpool_copy src cntr
  | .dropout => neural_layer_dropout_copy src cntr
  | .connected => .error "layer_copy: variant not among the given sources"

/-- The layer produced by a successful `layer_copy` with counter `c`. -/
def copiedLayer (f : Layer) (c : ℕ) : Layer :=
  match f.layer_type with
  | .maxpool =>
    { layer_type := f.layer_type, height := f.height,
      width := f.width, channels := f.channels, pad := f.pad,
      out_w := f.out_w, out_h := f.out_h, out_c := f.out_c,
      n_outputs := f.n_outputs, max_outputs := f.max_outputs,
      n_inputs := f.n_inputs, size := f.size, stride := f.stride,
      indexes := List.replicate f.n_outputs.toNat 0,
      output := List.replicate f.n_outputs.toNat 0,
      delta := List.replicate f.n_outputs.toNat 0,
      indexesId := c, outputId := c + 1, deltaId := c + 2 }
  | .dropout =>
    { layer_type := f.layer_type, n_inputs := f.n_inputs,
      n_outputs := f.n_inputs, max_outputs := f.max_outputs,
      probability := f.probability, scale := f.scale,
      output := List.replicate f.n_inputs.toNat 0,
      delta := List.replicate f.n_inputs.toNat 0,
      state := List.replicate f.n_inputs.toNat 0,
      outputId := c, deltaId := c + 1, stateId := c + 2 }
  | .connected => f

/-- The copies of a layer list, threading the allocation counter (three
fresh buffers per layer). -/
def copiedLayers : List Layer → ℕ → List Layer
  | [], _ => []
  | f :: t, c => copiedLayer f c :: copiedLayers t (c + 3)

/-- Loop body of `neural_copy`: copy one layer, insert it at the running
position.  The accumulator is `(dest, p, cntr)`. -/
def neural_copy_step (acc : Net × ℕ × ℕ) (f : Layer) :
    Except String (Net × ℕ × ℕ) := do
  let (l, c2) ← layer_copy f acc.2.2
  let net2 ← neural_layer_insert acc.1 l (acc.2.1 : ℤ)
  pure (net2, acc.2.1 + 1, c2)

/-- Model of `neural_copy` (neural.c, lines 158-169): `neural_init` on the
destination, then, from tail to head, copy each source layer and insert it
at position `p`, incrementing `p`. -/
def neural_copy (src : Net) (cntr : ℕ) : Except String (Net × ℕ) := do
  let r ← src.layers.foldlM neural_copy_step (neural_init, 0, cntr)
  pure (r.1, r.2.2)

/-- Membership from `getLast?`. -/
lemma mem_of_getLast?_eq {α : Type} {l : List α} {a : α}
    (h : l.getLast? = some a) : a ∈ l := by
  obtain ⟨hne, heq⟩ := List.mem_getLast?_eq_getLast (Option.mem_def.mpr h)
  rw [heq]
  exact List.getLast_mem hne

/-- A successful `layer_copy` yields exactly `copiedLayer` and advances the
counter by three. -/
lemma layer_copy_ok (f : Layer) (c : ℕ) (hwf : layerWF f) :
    layer_copy f c = .ok (copiedLayer f c, c + 3) := by
  rcases hwf with ⟨ht, h1, h2, _⟩ | ⟨ht, h1, h2, _⟩
  · simp only [layer_copy, neural_layer_maxpool_copy, copiedLayer, ht]
    rw [if_neg (by simp), if_neg (by push_neg; exact ⟨h1, h2⟩)]
  · simp only [layer_copy, neural_layer_dropout_copy, copiedLayer, ht]
    rw [if_neg (by simp), if_neg (by push_neg; exact ⟨h1, h2⟩)]

/-- The copy carries the claimed configuration fields (for dropout this uses
the `n_outputs = n_inputs` invariant, since the copy rebuilds `n_outputs`
from the source's `n_inputs`). -/
lemma copiedLayer_cfg (f : Layer) (c : ℕ) (hwf : layerWF f)
    (hdr : f.layer_type = .dropout → f.n_outputs = f.n_inputs) :
    cfgMatches (copiedLayer f c) f := by
  rcases hwf with ⟨ht, _⟩ | ⟨ht, _⟩
  · simp [cfgMatches, copiedLayer, ht, maxpoolCfg]
  · have hd := hdr ht
    simp [cfgMatches, copiedLayer, ht, dropoutCfg, hd]

/-- The copy's buffers carry exactly the three fresh identifiers. -/
lemma copiedLayer_allocIds (f : Layer) (c : ℕ) (hwf : layerWF f) :
    allocIds (copiedLayer f c) = [c, c + 1, c + 2] := by
  rcases hwf with ⟨ht, _⟩ | ⟨ht, _⟩ <;> simp [allocIds, copiedLayer, ht]

/-- Configuration-equal layers agree on `n_inputs` (for serialisable types). -/
lemma cfgMatches_n_inputs (a b : Layer) (hcfg : cfgMatches a b)
    (hwf : layerWF b) : a.n_inputs = b.n_inputs := by
  obtain ⟨ht, hmx, hdr⟩ := hcfg
  rcases hwf with ⟨ht2, _⟩ | ⟨ht2, _⟩
  · have hc := hmx (ht.trans ht2)
    simp only [maxpoolCfg, List.cons.injEq, and_true] at hc
    obtain ⟨_, _, _, _, _, _, _, _, _, hni, _, _⟩ := hc
    exact hni
  · have hc := hdr (ht.trans ht2)
    simp only [dropoutCfg, Prod.mk.injEq, List.cons.injEq, and_true] at hc
    exact hc.1.1

/-- Configuration-equal layers agree on `n_outputs` (for serialisable
types). -/
lemma cfgMatches_n_outputs (a b : Layer) (hcfg : cfgMatches a b)
    (hwf : layerWF b) : a.n_outputs = b.n_outputs := by
  obtain ⟨ht, hmx, hdr⟩ := hcfg
  rcases hwf with ⟨ht2, _⟩ | ⟨ht2, _⟩
  · have hc := hmx (ht.trans ht2)
    simp only [maxpoolCfg, List.cons.injEq, and_true] at hc
    obtain ⟨_, _, _, _, _, _, _, hno, _, _, _, _⟩ := hc
    exact hno
  · have hc := hdr (ht.trans ht2)
    simp only [dropoutCfg, Prod.mk.injEq, List.cons.injEq, and_true] at hc
    exact hc.1.2.1

/-- `copiedLayers` preserves length. -/
lemma copiedLayers_length (ls : List Layer) :
    ∀ c : ℕ, (copiedLayers ls c).length = ls.length := by
  induction ls with
  | nil => intro c; rfl
  | cons f t ih => intro c; simp [copiedLayers, ih (c + 3)]

/-- The copied list matches the source pointwise on configuration. -/
lemma copiedLayers_cfg (ls : List Layer) :
    ∀ c : ℕ, (∀ l ∈ ls, layerWF l) →
      (∀ l ∈ ls, l.layer_type = .dropout → l.n_outputs = l.n_inputs) →
      List.Forall₂ cfgMatches (copiedLayers ls c) ls := by
  induction ls with
  | nil => intro c _ _; exact List.Forall₂.nil
  | cons f t ih =>
    intro c h1 h2
    exact List.Forall₂.cons
      (copiedLayer_cfg f c (h1 f (List.mem_cons_self f t))
        (h2 f (List.mem_cons_self f t)))
      (ih (c + 3) (fun l hl => h1 l (List.mem_cons_of_mem f hl))
        (fun l hl => h2 l (List.mem_cons_of_mem f hl)))

/-- Every identifier of the copied list is at or above the starting
counter. -/
lemma copiedLayers_ids (ls : List Layer) :
    ∀ c : ℕ, (∀ l ∈ ls, layerWF l) →
      ∀ a ∈ allIds (copiedLayers ls c), c ≤ a := by
  induction ls with
  | nil => intro c _ a ha; simp [copiedLayers, allIds] at ha
  | cons f t ih =>
    intro c h1 a ha
    have hun : allIds (copiedLayers (f :: t) c) =
        allocIds (copiedLayer f c) ++ allIds (copiedLayers t (c + 3)) := by
      simp [copiedLayers, allIds]
    rw [hun, copiedLayer_allocIds f c (h1 f (List.mem_cons_self f t))] at ha
    simp only [List.mem_append] at ha
    rcases ha with ha | ha
    · simp at ha
      omega
    · have := ih (c + 3) (fun l hl => h1 l (List.mem_cons_of_mem f hl)) a ha
      omega

/-- `Forall₂` transports `head?` from left to right. -/
lemma forall₂_head? {R : Layer → Layer → Prop} {as bs : List Layer}
    (h : List.Forall₂ R as bs) :
    ∀ a, as.head? = some a → ∃ b, bs.head? = some b ∧ R a b := by
  induction h with
  | nil => intro a ha; simp at ha
  | cons hxy htl ih =>
    intro a ha
    simp only [List.head?_cons, Option.some.injEq] at ha
    exact ⟨_, rfl, ha ▸ hxy⟩

/-- `Forall₂` transports `getLast?` from right to left. -/
lemma forall₂_getLast?_right {R : Layer → Layer → Prop} {as bs : List Layer}
    (h : List.Forall₂ R as bs) :
    ∀ b, bs.getLast? = some b → ∃ a, as.getLast? = some a ∧ R a b := by
  induction h with
  | nil => intro b hb; simp at hb
  | cons hxy htl ih =>
    rename_i x y t1 t2
    intro b hb
    cases t2 with
    | nil =>
      cases htl
      simp at hb
      subst hb
      exact ⟨x, by simp, hxy⟩
    | cons w t2' =>
      rw [List.getLast?_cons_cons] at hb
      obtain ⟨a, ha, hR⟩ := ih b hb
      cases htl with
      | cons hzw htl2 =>
        rename_i z t1'
        exact ⟨a, by rw [List.getLast?_cons_cons]; exact ha, hR⟩

/-- One `neural_copy` loop iteration at the running position appends the
copied layer and advances both counters. -/
lemma neural_copy_step_ok (acc : Net) (f : Layer) (p c : ℕ)
    (hwf : layerWF f) (hp : p = acc.layers.length) :
    ∃ net1 : Net,
      neural_copy_step (acc, p, c) f = .ok (net1, p + 1, c + 3) ∧
      neural_layer_insert acc (copiedLayer f c) (p : ℤ) = .ok net1 ∧
      net1.layers = acc.layers ++ [copiedLayer f c] := by
  obtain ⟨net1, hins, hlay, hn⟩ := neural_layer_insert_at_end acc
    (copiedLayer f c) (p : ℤ) (by simp [hp])
  refine ⟨net1, ?_, hins, hlay⟩
  simp only [neural_copy_step, layer_copy_ok f c hwf, except_bind_ok, hins]
  rfl

/-- The `neural_copy` loop over a source layer list appends the copied
layers in order and preserves the bookkeeping invariants. -/
lemma neural_copy_go (ls : List Layer) :
    ∀ (acc : Net) (p c : ℕ), p = acc.layers.length →
      (∀ l ∈ ls, layerWF l) →
      countConsistent acc → headConsistent acc → tailConsistent acc →
      ∃ net2 : Net,
        ls.foldlM neural_copy_step (acc, p, c) =
          .ok (net2, p + ls.length, c + 3 * ls.length) ∧
        net2.layers = acc.layers ++ copiedLayers ls c ∧
        countConsistent net2 ∧ headConsistent net2 ∧ tailConsistent net2 := by
  induction ls with
  | nil =>
    intro acc p c _ _ h1 h2 h3
    exact ⟨acc, rfl, by simp [copiedLayers], h1, h2, h3⟩
  | cons f t ih =>
    intro acc p c hp hwf h1 h2 h3
    obtain ⟨net1, hstep, hins, hlay1⟩ := neural_copy_step_ok acc f p c
      (hwf f (List.mem_cons_self f t)) hp
    obtain ⟨hc1, hh1, ht1⟩ := neural_layer_insert_inv acc (copiedLayer f c)
      (p : ℤ) net1 hins h1 h2
    obtain ⟨net2, hfold, hlay2, hc2, hh2, ht2⟩ := ih net1 (p + 1) (c + 3)
      (by rw [hlay1]; simp [hp])
      (fun l hl => hwf l (List.mem_cons_of_mem f hl)) hc1 hh1 (ht1 h3)
    refine ⟨net2, ?_, ?_, hc2, hh2, ht2⟩
    · rw [List.foldlM_cons, hstep, except_bind_ok]
      have e1 : p + (f :: t).length = (p + 1) + t.length := by
        simp only [List.length_cons]
        omega
      have e2 : c + 3 * (f :: t).length = (c + 3) + 3 * t.length := by
        simp only [List.length_cons]
        omega
      rw [e1, e2]
      exact hfold
    · rw [hlay2, hlay1]
      simp [copiedLayers]

/-- C6: `neural_copy` of a well-formed network succeeds and produces a
network equal to the source in `n_layers`, `n_inputs`, `n_outputs` and
per-layer configuration, whose buffers are freshly allocated: every buffer
identifier of the copy is at or above the allocation counter, while every
buffer identifier of the source lies below it, so a heap write through any
buffer of the copy leaves every buffer of the original untouched, and vice
versa. -/
theorem C6_neural_copy (src : Net) (cntr : ℕ)
    (hwf : ∀ l ∈ src.layers, layerWF l)
    (hdrop : ∀ l ∈ src.layers,
      l.layer_type = .dropout → l.n_outputs = l.n_inputs)
    (hcount : countConsistent src) (hhead : headConsistent src)
    (htail : tailConsistent src)
    (hempty : src.layers = [] → src.n_inputs = 0 ∧ src.n_outputs = 0)
    (hids : ∀ b ∈ netAllocIds src, b < cntr) :
    ∃ (net2 : Net) (c2 : ℕ),
      neural_copy src cntr = .ok (net2, c2) ∧
      net2.n_layers = src.n_layers ∧
      net2.n_inputs = src.n_inputs ∧
      net2.n_outputs = src.n_outputs ∧
      List.Forall₂ cfgMatches net2.layers src.layers ∧
      (∀ a ∈ netAllocIds net2, cntr ≤ a) ∧
      (∀ (H : ℕ → List ℚ) (v : List ℚ) (a : ℕ), a ∈ netAllocIds net2 →
        ∀ b ∈ netAllocIds src, Function.update H a v b = H b) ∧
      (∀ (H : ℕ → List ℚ) (v : List ℚ) (b : ℕ), b ∈ netAllocIds src →
        ∀ a ∈ netAllocIds net2, Function.update H b v a = H a) := by
  obtain ⟨net2, hfold, hlay, hc2, hh2, ht2⟩ := neural_copy_go src.layers
    neural_init 0 cntr rfl hwf (by simp [countConsistent, neural_init])
    (by intro hd h; simp [neural_init] at h)
    (by intro tl h; simp [neural_init] at h)
  have hlay' : net2.layers = copiedLayers src.layers cntr := by
    rw [hlay]
    simp [neural_init]
  have hinit : src.layers = [] → net2 = neural_init := by
    intro hsl
    rw [hsl] at hfold
    simp only [List.foldlM_nil] at hfold
    have h' : Except.ok (ε := String) (neural_init, (0 : ℕ), cntr) =
        Except.ok (net2, 0 + ([] : List Layer).length,
          cntr + 3 * ([] : List Layer).length) := hfold
    simp only [Except.ok.injEq, Prod.mk.injEq] at h'
    exact h'.1.symm
  have hcopy : neural_copy src cntr =
      .ok (net2, cntr + 3 * src.layers.length) := by
    show (src.layers.foldlM neural_copy_step (neural_init, 0, cntr)) >>=
        (fun r => pure (r.1, r.2.2)) =
      .ok (net2, cntr + 3 * src.layers.length)
    rw [hfold, except_bind_ok]
    rfl
  have hforall : List.Forall₂ cfgMatches net2.layers src.layers := by
    rw [hlay']
    exact copiedLayers_cfg src.layers cntr hwf hdrop
  have hidlow : ∀ a ∈ netAllocIds net2, cntr ≤ a := by
    intro a ha
    simp only [netAllocIds] at ha
    rw [hlay'] at ha
    exact copiedLayers_ids src.layers cntr hwf a ha
  refine ⟨net2, cntr + 3 * src.layers.length, hcopy, ?_, ?_, ?_, hforall,
    hidlow, ?_, ?_⟩
  · have hlen : net2.layers.length = src.layers.length := by
      rw [hlay']
      exact copiedLayers_length src.layers cntr
    rw [hc2, hcount, hlen]
  · cases hsl : src.layers with
    | nil =>
      rw [hinit hsl, (hempty hsl).1]
      rfl
    | cons f t =>
      have hfm : f ∈ src.layers := by
        rw [hsl]
        exact List.mem_cons_self f t
      have hf : src.layers.head? = some f := by rw [hsl]; rfl
      have hsrc := htail f hf
      have hnet2 : net2.layers.head? = some (copiedLayer f cntr) := by
        rw [hlay', hsl]
        rfl
      have h2 := ht2 _ hnet2
      have hni := cfgMatches_n_inputs _ _
        (copiedLayer_cfg f cntr (hwf f hfm) (hdrop f hfm)) (hwf f hfm)
      rw [h2, hni, hsrc]
  · cases hsl : src.layers with
    | nil =>
      rw [hinit hsl, (hempty hsl).2]
      rfl
    | cons f t =>
      obtain ⟨la, hla⟩ : ∃ la, src.layers.getLast? = some la := by
        rw [hsl]
        cases hgl : (f :: t).getLast? with
        | none =>
          rw [List.getLast?_eq_none_iff] at hgl
          simp at hgl
        | some x => exact ⟨x, rfl⟩
      have hlam : la ∈ src.layers := mem_of_getLast?_eq hla
      have hsrcout := (hhead la hla).1
      obtain ⟨b, hb, hcfgb⟩ := forall₂_getLast?_right hforall la hla
      have h2 := (hh2 b hb).1
      have hno := cfgMatches_n_outputs b la hcfgb (hwf la hlam)
      rw [h2, hno, hsrcout]
  · intro H v a ha b hb
    have h1 := hidlow a ha
    have h2 := hids b hb
    have hne : b ≠ a := by omega
    exact Function.update_noteq hne v H
  · intro H v b hb a ha
    have h1 := hidlow a ha
    have h2 := hids b hb
    have hne : a ≠ b := by omega
    exact Function.update_noteq hne v H

/-- A concrete well-formed single-dropout network with buffer identifiers
1, 2, 3 for exercising the copy theorem. -/
def c6Net : Net :=
  { layers := [{ layer_type := .dropout, n_inputs := 2, n_outputs := 2,
                 max_outputs := 2, probability := 0, scale := 1,
                 output := [0, 0], delta := [0, 0], state := [0, 0],
                 outputId := 1, deltaId := 2, stateId := 3 }],
    n_layers := 1, n_inputs := 2, n_outputs := 2, outputRef := some 1 }

theorem C6_neural_copy_witness :
    (∀ l ∈ c6Net.layers, layerWF l) ∧
    (∀ b ∈ netAllocIds c6Net, b < 10) ∧
    ∃ (net2 : Net) (c2 : ℕ),
      neural_copy c6Net 10 = .ok (net2, c2) ∧
      net2.n_layers = c6Net.n_layers ∧
      net2.n_inputs = c6Net.n_inputs ∧
      net2.n_outputs = c6Net.n_outputs ∧
      List.Forall₂ cfgMatches net2.layers c6Net.layers ∧
      (∀ a ∈ netAllocIds net2, 10 ≤ a) ∧
      (∀ (H : ℕ → List ℚ) (v : List ℚ) (a : ℕ), a ∈ netAllocIds net2 →
        ∀ b ∈ netAllocIds c6Net, Function.update H a v b = H b) ∧
      (∀ (H : ℕ → List ℚ) (v : List ℚ) (b : ℕ), b ∈ netAllocIds c6Net →
        ∀ a ∈ netAllocIds net2, Function.update H b v a = H a) := by
  have hwf : ∀ l ∈ c6Net.layers, layerWF l := by
    intro l hl
    have hl' := (List.mem_singleton).mp hl
    subst hl'
    exact Or.inr ⟨rfl, by decide, by decide, by decide⟩
  have hids : ∀ b ∈ netAllocIds c6Net, b < 10 := by decide
  refine ⟨hwf, hids, ?_⟩
  refine C6_neural_copy c6Net 10 hwf ?_ ?_ ?_ ?_ ?_ hids
  · intro l hl
    have hl' := (List.mem_singleton).mp hl
    subst hl'
    intro
    rfl
  · rfl
  · intro hd h
    have h' : some (c6Net.layers.get ⟨0, by decide⟩) = some hd := by
      rw [← h]
      rfl
    cases h'
    exact ⟨rfl, rfl⟩
  · intro tl h
    have h' : some (c6Net.layers.get ⟨0, by decide⟩) = some tl := by
      rw [← h]
      rfl
    cases h'
    rfl
  · intro h
    simp [c6Net] at h

end XCSF
